import Mathlib

/-!
# Sudoku: the solver, the generator and the game state

A shallow embedding of `sudoku.cpp` / `main.cpp`.

* `int board[9][9]`, `int solution[9][9]` are functions `Fin 9 → Fin 9 → Int`
  (the index type rules out the out-of-bounds accesses that are undefined in C++);
  `bool fixed[9][9]` is a function into `Bool`.
* A member function that reads or writes only one field of `GameData` takes and
  returns that field (`solveSudoku` works on `data.solution`, `isValid` reads
  `data.board`).
* `solveSudoku` is recursive; the model carries the remaining nesting depth as fuel
  and answers `none` when the fuel is used up.  `none` therefore never stands for
  the `false` of the C++ function.
* `rand()` is a list of natural numbers handed to the generator; the removal loop
  answers `none` when the list is used up before the loop has finished.
* The counters are `int`; the model uses `Int` (signed overflow is undefined in C++
  and is not modelled).
* A save file is the list of the integers it holds; `none` is a file that cannot be
  opened.
* The game loop of `main` is a function of the list of integer triples read at the
  prompt (`gameLoop` over `mainStep`); the quit command and the menus are left out.
-/

namespace Sudoku

/-- A 9×9 array of `int`; the value 0 marks an empty cell. -/
abbrev Grid := Fin 9 → Fin 9 → Int

/-- A 9×9 array of `bool`. -/
abbrev Mask := Fin 9 → Fin 9 → Bool

/-- The structure `GameData` of `sudoku.h`. -/
structure GameData where
  board : Grid
  fixed : Mask
  hintsUsed : Int
  wrongAttempts : Int
  solution : Grid

/-- The assignment `a[row][col] = v` on a 9×9 array. -/
def setCell {α : Type} (a : Fin 9 → Fin 9 → α) (row col : Fin 9) (v : α) : Fin 9 → Fin 9 → α :=
  fun r c => if r = row ∧ c = col then v else a r c

/-- The loop indices 0, 1, ..., 8 of `for (i = 0; i < 9; i++)`. -/
def idx9 : List (Fin 9) := [0, 1, 2, 3, 4, 5, 6, 7, 8]

/-- The loop indices 0, 1, 2 of `for (i = 0; i < 3; i++)`. -/
def idx3 : List (Fin 3) := [0, 1, 2]

/-- The index `x - x % 3 + i` used for the 3×3 box scan (`boxRow + i`, `boxCol + j`). -/
def boxCell (x : Fin 9) (i : Fin 3) : Fin 9 :=
  ⟨x.val - x.val % 3 + i.val, by omega⟩

/-- The nested loop `for row in 0..8, for col in 0..8: if (p row col) return (row, col)`,
    with `none` when the loops run to their end. -/
def firstCell (p : Fin 9 → Fin 9 → Bool) : Option (Fin 9 × Fin 9) :=
  idx9.findSome? fun row => (idx9.find? fun col => p row col).map fun col => (row, col)

/-- `SudokuGame::findEmptyCell` on `data.solution`: `some (row, col)` is the return value
    `true` with the out-parameters, `none` is the return value `false`. -/
def findEmptyCell (solution : Grid) : Option (Fin 9 × Fin 9) :=
  firstCell fun row col => solution row col == 0

/-- `SudokuGame::isValidPlacement` on `data.solution`. -/
def isValidPlacement (solution : Grid) (row col : Fin 9) (num : Int) : Bool :=
  (idx9.all fun i => !(solution row i == num || solution i col == num)) &&
  (idx3.all fun i => idx3.all fun j =>
    !(solution (boxCell row i) (boxCell col j) == num))

/-- The loop `for (num = 1; num <= 9; num++)` of `solveSudoku`, run over the candidates
    still to try; `solve` is the recursive call. Every exit returns the grid as the loop
    leaves it. -/
def tryNums (solve : Grid → Option (Bool × Grid)) (row col : Fin 9) :
    List Int → Grid → Option (Bool × Grid)
  | [], g => some (false, g)
  | num :: rest, g =>
    if isValidPlacement g row col num then
      match solve (setCell g row col num) with
      | none => none
      | some (true, g1) => some (true, g1)
      | some (false, g1) => tryNums solve row col rest (setCell g1 row col 0)
    else tryNums solve row col rest g

/-- The candidate values 1..9 in the order the solver tries them. -/
def candidates : List Int := [1, 2, 3, 4, 5, 6, 7, 8, 9]

/-- `SudokuGame::solveSudoku` on `data.solution`, with at most `fuel` nested calls:
    the result is the returned flag and the grid after the call. -/
def solveFuel : Nat → Grid → Option (Bool × Grid)
  | 0, _ => none
  | fuel + 1, g =>
    match findEmptyCell g with
    | none => some (true, g)
    | some (row, col) => tryNums (solveFuel fuel) row col candidates g

/-- `SudokuGame::solveSudoku`: 82 nested calls are enough for every grid
    (see `solveSudoku_terminates`). -/
def solveSudoku (g : Grid) : Option (Bool × Grid) := solveFuel 82 g

/-- `SudokuGame::generateSolution`: runs the solver and drops its return value. -/
def generateSolution (d : GameData) : Option GameData :=
  (solveSudoku d.solution).map fun r => { d with solution := r.2 }

/-- The loop `while (cellsToRemove > 0)` of `generateSudoku`; every iteration draws two
    random numbers. -/
def removeLoop : Nat → List Nat → GameData → Option GameData
  | 0, _, d => some d
  | _ + 1, [], _ => none
  | _ + 1, [_], _ => none
  | n + 1, a :: b :: rest, d =>
    let row : Fin 9 := ⟨a % 9, Nat.mod_lt a (by decide)⟩
    let col : Fin 9 := ⟨b % 9, Nat.mod_lt b (by decide)⟩
    if d.board row col ≠ 0 then
      removeLoop n rest
        { d with board := setCell d.board row col 0, fixed := setCell d.fixed row col false }
    else removeLoop (n + 1) rest d

/-- `SudokuGame::generateSudoku`; `rs` are the values returned by `rand()`. -/
def generateSudoku (rs : List Nat) (d : GameData) : Option GameData :=
  match generateSolution d with
  | none => none
  | some d1 =>
    match rs with
    | [] => none
    | r :: rest =>
      removeLoop (40 + r % 15) rest { d1 with board := d1.solution, fixed := fun _ _ => true }

/-- The all-zero grid left by `memset(..., 0, ...)`. -/
def emptyGrid : Grid := fun _ _ => 0

/-- The state the constructor sets up (three `memset` and two assignments) before it
    calls `generateSudoku`. -/
def blankData : GameData :=
  { board := emptyGrid, fixed := fun _ _ => false, hintsUsed := 0, wrongAttempts := 0,
    solution := emptyGrid }

/-- The constructor `SudokuGame::SudokuGame`. -/
def SudokuGame (rs : List Nat) : Option GameData :=
  generateSudoku rs blankData

/-- `SudokuGame::isValid` on `data.board`. -/
def isValid (board : Grid) (row col : Fin 9) (num : Int) : Bool :=
  (idx9.all fun i => !(board row i == num || board i col == num)) &&
  (idx3.all fun i => idx3.all fun j =>
    !(board (boxCell row i) (boxCell col j) == num))

/-- `SudokuGame::provideHint` (the message it prints is left out). -/
def provideHint (d : GameData) : GameData :=
  match firstCell fun i j => d.board i j == 0 && !d.fixed i j with
  | some (i, j) =>
    { d with board := setCell d.board i j (d.solution i j), fixed := setCell d.fixed i j true,
             hintsUsed := d.hintsUsed + 1 }
  | none => d

/-- `SudokuGame::isComplete`. -/
def isComplete (d : GameData) : Bool :=
  idx9.all fun i => idx9.all fun j => !(d.board i j == 0)

/-- `SudokuGame::updateBoard`. -/
def updateBoard (d : GameData) (row col : Fin 9) (num : Int) : GameData :=
  { d with board := setCell d.board row col num, fixed := setCell d.fixed row col true }

/-- `SudokuGame::incrementWrongAttempts`. -/
def incrementWrongAttempts (d : GameData) : GameData :=
  { d with wrongAttempts := d.wrongAttempts + 1 }

/-- `SudokuGame::getHintsUsed`. -/
def getHintsUsed (d : GameData) : Int := d.hintsUsed

/-- `SudokuGame::getWrongAttempts`. -/
def getWrongAttempts (d : GameData) : Int := d.wrongAttempts

/-- `SudokuGame::isFixed`. -/
def isFixed (d : GameData) (row col : Fin 9) : Bool := d.fixed row col

/-- `SudokuGame::getSolutionAt`. -/
def getSolutionAt (d : GameData) (row col : Fin 9) : Int := d.solution row col

/-- The integers `saveGame` writes to the file: the 81 board cells in row-major order,
    then `hintsUsed`, then `wrongAttempts`. -/
def saveTokens (d : GameData) : List Int :=
  (idx9.flatMap fun i => idx9.map fun j => d.board i j) ++ [d.hintsUsed, d.wrongAttempts]

/-- `SudokuGame::saveGame`: the content of the save file after the call. `file` is the
    content before the call (`none`: there is no readable file) and `canWrite` tells
    whether the file can be opened for writing. The game state is not changed. -/
def saveGame (canWrite : Bool) (d : GameData) (file : Option (List Int)) : Option (List Int) :=
  if canWrite then some (saveTokens d) else file

/-- `SudokuGame::loadGame`. `file` is the list of integers in the save file, `none` when
    the file cannot be opened. The `k`-th extraction `file >> x` stores the `k`-th integer
    of the file; once the file is used up the extraction fails and leaves `x` as it was.
    `rs` are the values of `rand()` for the fallback `generateSudoku`. -/
def loadGame (file : Option (List Int)) (rs : List Nat) (d : GameData) : Option GameData :=
  match file with
  | some toks =>
    let board : Grid := fun i j => toks.getD (9 * i.val + j.val) (d.board i j)
    generateSolution
      { d with board := board, fixed := fun i j => board i j != 0,
               hintsUsed := toks.getD 81 d.hintsUsed,
               wrongAttempts := toks.getD 82 d.wrongAttempts }
  | none =>
    generateSudoku rs
      { d with board := emptyGrid, fixed := fun _ _ => false, hintsUsed := 0,
               wrongAttempts := 0 }

/-- The 0-based index `x - 1` of a 1-based coordinate `x` typed by the player; it is used
    only after the range test `1 ≤ x ≤ 9` of the game loop. -/
def cellIndex (x : Int) : Fin 9 :=
  ⟨(x - 1).toNat % 9, Nat.mod_lt _ (by decide)⟩

/-- What the game loop of `main` holds between two inputs: the game and the save file. -/
structure Session where
  game : GameData
  file : Option (List Int)

/-- Lines 148-188 of `main.cpp`: a move `(row, col, num)` that passed the range test.
    The flag tells whether the loop is left (`break`). -/
def playMove (d : GameData) (row col num : Int) : GameData × Bool :=
  if isFixed d (cellIndex row) (cellIndex col) then (d, false)
  else if !isValid d.board (cellIndex row) (cellIndex col) num then (d, false)
  else if num ≠ getSolutionAt d (cellIndex row) (cellIndex col) then
    (incrementWrongAttempts d, decide (getWrongAttempts (incrementWrongAttempts d) ≥ 3))
  else
    (updateBoard d (cellIndex row) (cellIndex col) num,
      isComplete (updateBoard d (cellIndex row) (cellIndex col) num))

/-- One pass of the game loop of `main` (lines 115-188) on three integers read from the
    input. The flag tells whether the loop is left; `none` stands for a call that does not
    return. -/
def mainStep (canWrite : Bool) (rs : List Nat) (s : Session) (row col num : Int) :
    Option (Session × Bool) :=
  if row = 0 ∧ col = 0 ∧ num = 0 then
    if getHintsUsed s.game < 2 then some ({ s with game := provideHint s.game }, false)
    else some (s, false)
  else if row < 1 ∨ row > 9 ∨ col < 1 ∨ col > 9 ∨ num < 1 ∨ num > 9 then some (s, false)
  else if row = -1 ∧ col = -1 ∧ num = -1 then
    some ({ s with file := saveGame canWrite s.game s.file }, false)
  else if row = -2 ∧ col = -2 ∧ num = -2 then
    (loadGame s.file rs s.game).map fun d => ({ s with game := d }, false)
  else
    some ({ s with game := (playMove s.game row col num).1 }, (playMove s.game row col num).2)

/-- The grid whose rows are the given lists (a missing entry reads as 0); used to write
    down concrete grids. -/
def ofRows (rows : List (List Int)) : Grid :=
  fun r c => (rows.getD r.val []).getD c.val 0

/-- Equality of solver results is decided cell by cell. -/
instance decEqResult : DecidableEq (Option (Bool × Grid)) := fun a b =>
  match a, b with
  | none, none => isTrue rfl
  | none, some _ => isFalse (fun h => Option.noConfusion h)
  | some _, none => isFalse (fun h => Option.noConfusion h)
  | some (b1, g1), some (b2, g2) =>
    decidable_of_iff (b1 = b2 ∧ ∀ r c, g1 r c = g2 r c)
      ⟨fun h => by rw [h.1, funext fun r => funext fun c => h.2 r c],
       fun h => by
        have h1 := Option.some.inj h
        exact ⟨congrArg Prod.fst h1, fun r c => congrFun (congrFun (congrArg Prod.snd h1) r) c⟩⟩

/-- The grid the solver reaches from the all-zero grid. -/
def firstSolution : Grid :=
  ofRows [[1, 2, 3, 4, 5, 6, 7, 8, 9], [4, 5, 6, 7, 8, 9, 1, 2, 3], [7, 8, 9, 1, 2, 3, 4, 5, 6],
          [2, 1, 4, 3, 6, 5, 8, 9, 7], [3, 6, 5, 8, 9, 7, 2, 1, 4], [8, 9, 7, 2, 1, 4, 3, 6, 5],
          [5, 3, 1, 6, 4, 2, 9, 7, 8], [6, 4, 2, 9, 7, 8, 5, 3, 1], [9, 7, 8, 5, 3, 1, 6, 4, 2]]

/-- A partly filled grid: `firstSolution` with its first row and two further cells cleared. -/
def puzzleGrid : Grid :=
  ofRows [[0, 0, 0, 0, 0, 0, 0, 0, 0], [4, 5, 6, 7, 8, 9, 1, 2, 3], [7, 8, 9, 1, 2, 3, 4, 5, 6],
          [2, 1, 4, 3, 6, 5, 8, 9, 7], [3, 6, 5, 8, 0, 7, 2, 1, 4], [8, 9, 7, 2, 1, 4, 3, 6, 5],
          [5, 3, 1, 6, 4, 2, 9, 7, 8], [6, 4, 2, 9, 7, 8, 5, 3, 1], [9, 7, 8, 5, 3, 1, 6, 4, 0]]

/-- A grid whose only nonzero cell is (0,0), which holds 5. -/
def ownCellGrid : Grid := ofRows [[5]]

/-- Equality of game states is decided field by field and cell by cell. -/
instance decEqGame : DecidableEq (Option GameData) := fun a b =>
  match a, b with
  | none, none => isTrue rfl
  | none, some _ => isFalse (fun h => Option.noConfusion h)
  | some _, none => isFalse (fun h => Option.noConfusion h)
  | some ⟨b1, f1, h1, w1, s1⟩, some ⟨b2, f2, h2, w2, s2⟩ =>
    decidable_of_iff ((∀ r c, b1 r c = b2 r c) ∧ (∀ r c, f1 r c = f2 r c) ∧ h1 = h2 ∧
        w1 = w2 ∧ ∀ r c, s1 r c = s2 r c)
      ⟨fun h => by
        rw [funext fun r => funext fun c => h.1 r c,
          funext fun r => funext fun c => h.2.1 r c, h.2.2.1, h.2.2.2.1,
          funext fun r => funext fun c => h.2.2.2.2 r c],
       fun h => by
        have h0 := Option.some.inj h
        exact ⟨fun r c => congrFun (congrFun (congrArg GameData.board h0) r) c,
          fun r c => congrFun (congrFun (congrArg GameData.fixed h0) r) c,
          congrArg GameData.hintsUsed h0, congrArg GameData.wrongAttempts h0,
          fun r c => congrFun (congrFun (congrArg GameData.solution h0) r) c⟩⟩

/-- The coordinates drawn by the removal loop in the example: two values of `rand()` for
    every pass (one cell is drawn twice). -/
def exampleDraws : List Nat :=
  [9, 0, 0, 19, 0, 2, 9, 3, 0, 4, 0, 23, 0, 2, 9, 6, 0, 7, 0,
   8, 10, 18, 1, 1, 1, 2, 10, 3, 1, 22, 1, 5, 10, 6, 1, 7, 1, 26, 11,
   0, 2, 1, 2, 2, 11, 21, 2, 4, 2, 5, 11, 6, 2, 25, 2, 8, 12, 0, 3,
   1, 3, 20, 12, 3, 3, 4, 3, 5, 12, 24, 3, 7, 3, 8, 13, 0, 4, 19, 4,
   2, 13, 3]

/-- A sequence of values of `rand()`: the first gives the removal count 40 + 15 % 15 = 40,
    the others are the coordinates drawn by the removal loop. -/
def exampleRand : List Nat := 15 :: exampleDraws

/-- The board of the game constructed from `exampleRand`. -/
def exampleBoard : Grid :=
  ofRows [[0, 0, 0, 0, 0, 0, 0, 0, 0], [0, 0, 0, 0, 0, 0, 0, 0, 0], [0, 0, 0, 0, 0, 0, 0, 0, 0],
          [0, 0, 0, 0, 0, 0, 0, 0, 0], [0, 0, 0, 0, 9, 7, 2, 1, 4], [8, 9, 7, 2, 1, 4, 3, 6, 5],
          [5, 3, 1, 6, 4, 2, 9, 7, 8], [6, 4, 2, 9, 7, 8, 5, 3, 1], [9, 7, 8, 5, 3, 1, 6, 4, 2]]

/-- The game constructed from `exampleRand`. -/
def exampleGame : GameData :=
  { board := exampleBoard, fixed := fun r c => exampleBoard r c != 0, hintsUsed := 0,
    wrongAttempts := 0, solution := firstSolution }

/-- A grid without completion on which the solver places a value and takes it back before
    it fails: the cells (0,0) and (0,1) need 1 and 2, and both values already stand in
    column 1. -/
def stuckGrid : Grid :=
  ofRows [[0, 0, 3, 4, 5, 6, 7, 8, 9], [], [], [], [], [0, 1], [0, 2]]

/-! ## Predicates used to state the properties -/

/-- Every entry of the grid lies in 0..9. -/
def InRange (g : Grid) : Prop := ∀ r c, 0 ≤ g r c ∧ g r c ≤ 9

/-- Cell `(r2, c2)` lies in row `r1`, in column `c1` or in the 3×3 box of `(r1, c1)`. -/
def Related (r1 c1 r2 c2 : Fin 9) : Prop :=
  r2 = r1 ∨ c2 = c1 ∨ (r2.val / 3 = r1.val / 3 ∧ c2.val / 3 = c1.val / 3)

/-- The nonzero cells do not conflict: no value is repeated in a row, a column or a box. -/
def NoConflict (g : Grid) : Prop :=
  ∀ r1 c1 r2 c2, (r2 ≠ r1 ∨ c2 ≠ c1) → Related r1 c1 r2 c2 → g r1 c1 ≠ 0 → g r2 c2 ≠ g r1 c1

/-- No cell holds 0. -/
def NoZero (g : Grid) : Prop := ∀ r c, g r c ≠ 0

/-- Every row, every column and every 3×3 box holds each of 1..9 exactly once. -/
def EachOnce (g : Grid) : Prop :=
  ∀ v : Int, 1 ≤ v → v ≤ 9 →
    (∀ r, ∃! c, g r c = v) ∧ (∀ c, ∃! r, g r c = v) ∧
    (∀ br bc : Fin 3, ∃! p : Fin 9 × Fin 9,
      (p.1.val / 3 = br.val ∧ p.2.val / 3 = bc.val) ∧ g p.1 p.2 = v)

/-- A complete valid Sudoku grid. -/
def Solved (g : Grid) : Prop := NoZero g ∧ EachOnce g

/-- Grid `g2` agrees with `g1` at every cell that is nonzero in `g1`. -/
def Agrees (g1 g2 : Grid) : Prop := ∀ r c, g1 r c ≠ 0 → g2 r c = g1 r c

instance decidableRelated (r1 c1 r2 c2 : Fin 9) : Decidable (Related r1 c1 r2 c2) :=
  inferInstanceAs (Decidable (r2 = r1 ∨ c2 = c1 ∨
    (r2.val / 3 = r1.val / 3 ∧ c2.val / 3 = c1.val / 3)))

instance decidableInRange (g : Grid) : Decidable (InRange g) :=
  inferInstanceAs (Decidable (∀ r c, 0 ≤ g r c ∧ g r c ≤ 9))

instance decidableNoConflict (g : Grid) : Decidable (NoConflict g) :=
  inferInstanceAs (Decidable (∀ r1 c1 r2 c2, (r2 ≠ r1 ∨ c2 ≠ c1) → Related r1 c1 r2 c2 →
    g r1 c1 ≠ 0 → g r2 c2 ≠ g r1 c1))

/-- The cells read by the conflict check for `(row, col)`, in the order of the two loops of
    `isValid` / `isValidPlacement`. -/
def inspected (row col : Fin 9) : List (Fin 9 × Fin 9) :=
  (idx9.flatMap fun i => [(row, i), (i, col)]) ++
  (idx3.flatMap fun i => idx3.map fun j => (boxCell row i, boxCell col j))

/-- The `k`-th cell of the 3×3 box `(br, bc)`, counted row by row inside the box. -/
def boxEnum (br bc : Fin 3) (k : Fin 9) : Fin 9 × Fin 9 :=
  (⟨3 * br.val + k.val / 3, by omega⟩, ⟨3 * bc.val + k.val % 3, by omega⟩)

/-- The number of cells that hold 0. -/
def emptyCount (g : Grid) : Nat :=
  (Finset.univ.filter fun p : Fin 9 × Fin 9 => g p.1 p.2 = 0).card

/-- The number of cells that do not hold 0. -/
def nonzeroCount (g : Grid) : Nat :=
  (Finset.univ.filter fun p : Fin 9 × Fin 9 => g p.1 p.2 ≠ 0).card

/-! ## The solver body, the order of the grids, the game loop -/

/-- The body of `solveSudoku` with its recursive calls made through `solve`. -/
def solveBody (solve : Grid → Option (Bool × Grid)) (g : Grid) : Option (Bool × Grid) :=
  match findEmptyCell g with
  | none => some (true, g)
  | some (row, col) => tryNums solve row col candidates g

/-- Cell `(r1, c1)` comes before cell `(r2, c2)` in row-major order. -/
def Before (r1 c1 r2 c2 : Fin 9) : Prop := r1 < r2 ∨ (r1 = r2 ∧ c1 < c2)

/-- Grid `a` is smaller than grid `b` in the lexicographic order of the cells read in
    row-major order: at the first cell where they differ `a` holds the smaller value. -/
def LexLt (a b : Grid) : Prop :=
  ∃ r c, a r c < b r c ∧ ∀ r2 c2, Before r2 c2 r c → a r2 c2 = b r2 c2

/-- Grid `a` is equal to `b` or lexicographically smaller. -/
def LexLe (a b : Grid) : Prop := a = b ∨ LexLt a b

/-- The game loop of `main` run on a list of inputs, each three integers read at the
    prompt: the loop goes on until a pass leaves it (`break`) or the inputs are used up.
    The flag tells whether the loop was left. -/
def gameLoop (canWrite : Bool) (rs : List Nat) :
    List (Int × Int × Int) → Session → Option (Session × Bool)
  | [], s => some (s, false)
  | (row, col, num) :: rest, s =>
    match mainStep canWrite rs s row col num with
    | none => none
    | some (s1, true) => some (s1, true)
    | some (s1, false) => gameLoop canWrite rs rest s1

/-- An incorrect move: the three integers are in 1..9, the cell is not fixed, the value
    does not conflict on the board and differs from the solution value. -/
def isWrongMove (d : GameData) (row col num : Int) : Bool :=
  decide (1 ≤ row ∧ row ≤ 9 ∧ 1 ≤ col ∧ col ≤ 9 ∧ 1 ≤ num ∧ num ≤ 9) &&
  !isFixed d (cellIndex row) (cellIndex col) &&
  isValid d.board (cellIndex row) (cellIndex col) num &&
  decide (num ≠ getSolutionAt d (cellIndex row) (cellIndex col))

/-- The number of incorrect moves among the inputs the game loop handles. -/
def wrongCount (canWrite : Bool) (rs : List Nat) : List (Int × Int × Int) → Session → Nat
  | [], _ => 0
  | (row, col, num) :: rest, s =>
    (if isWrongMove s.game row col num then 1 else 0) +
    match mainStep canWrite rs s row col num with
    | some (s1, false) => wrongCount canWrite rs rest s1
    | _ => 0

/-- What holds of the game data all through a session: the solution is the grid found at
    construction, the fixed cells are the nonzero board cells, every nonzero board cell
    holds the solution value, and between 0 and 2 hints have been used. -/
def GameInv (d : GameData) : Prop :=
  d.solution = firstSolution ∧ (∀ r c, d.fixed r c = true ↔ d.board r c ≠ 0) ∧
  (∀ r c, d.board r c ≠ 0 → d.board r c = d.solution r c) ∧
  0 ≤ d.hintsUsed ∧ d.hintsUsed ≤ 2

/-- The coordinates drawn by the removal loop in a second example. -/
def exampleDraws2 : List Nat :=
  [82, 38, 101, 166, 12, 18, 137, 24, 93, 149, 14, 129, 54, 9, 22, 111, 107, 17,
   61, 23, 141, 108, 15, 144, 31, 57, 161, 160, 149, 15, 147, 149, 101, 12, 56, 11,
   142, 34, 74, 107, 36, 138, 30, 146, 78, 143, 174, 46, 26, 148, 146, 163, 48, 95,
   24, 140, 182, 16, 144, 15, 158, 52, 127, 174, 136, 109, 198, 80, 119, 149, 116, 92,
   76, 63, 46, 178, 199, 62, 20, 147, 76, 134, 126, 87, 186, 114, 73, 155, 18, 30,
   131, 107, 42, 193, 87, 38, 125, 107, 10, 171, 19, 195, 142, 146, 80, 87, 177, 89,
   152, 127, 148, 116, 17, 23, 69, 121, 178, 170, 16, 15, 187, 179, 79, 165, 147, 174,
   114, 72, 183, 98, 171, 88, 5, 118, 90, 43, 156, 29, 126, 15, 55, 196, 73, 33,
   189, 63, 101, 100, 127, 20, 42, 114, 102, 140, 71, 35, 110, 140, 71, 180]

/-- A second sequence of values of `rand()`: the removal count is 40 + 29 % 15 = 54. -/
def exampleRand2 : List Nat := 29 :: exampleDraws2

/-- The board of the game constructed from `exampleRand2`. -/
def exampleBoard2 : Grid :=
  ofRows [[0, 2, 3, 0, 5, 6, 0, 0, 0],
          [0, 0, 0, 0, 8, 9, 0, 0, 0],
          [7, 0, 0, 0, 0, 0, 0, 0, 0],
          [0, 0, 0, 0, 6, 0, 8, 9, 0],
          [0, 6, 5, 0, 9, 7, 2, 1, 0],
          [8, 0, 7, 0, 1, 4, 0, 0, 0],
          [0, 3, 0, 6, 0, 0, 0, 7, 0],
          [6, 4, 0, 0, 7, 0, 0, 0, 0],
          [0, 0, 0, 5, 0, 0, 0, 0, 0]]

/-- The game constructed from `exampleRand2`. -/
def exampleGame2 : GameData :=
  { board := exampleBoard2, fixed := fun r c => exampleBoard2 r c != 0, hintsUsed := 0,
    wrongAttempts := 0, solution := firstSolution }

/-- Inputs of a short session on `exampleGame`: a correct move, a hint request, a wrong
    move, a move on a fixed cell, a conflicting move and an input out of range. -/
def exampleInputs : List (Int × Int × Int) :=
  [(1, 2, 2), (0, 0, 0), (1, 3, 4), (5, 5, 1), (1, 4, 2), (1, 10, 3)]

/-- Inputs of a session on `exampleGame` that is lost: two wrong values for cell (0,0), a
    hint request, a wrong value for cell (0,1), and one more input that the loop, already
    left, does not read. -/
def lostInputs : List (Int × Int × Int) :=
  [(1, 1, 2), (1, 1, 3), (0, 0, 0), (1, 2, 5), (1, 2, 2)]

theorem setCell_same {α : Type} (a : Fin 9 → Fin 9 → α) (row col : Fin 9) (v : α) :
    setCell a row col v row col = v := by
  simp [setCell]

theorem setCell_other {α : Type} (a : Fin 9 → Fin 9 → α) (row col r c : Fin 9) (v : α)
    (h : r ≠ row ∨ c ≠ col) : setCell a row col v r c = a r c := by
  unfold setCell
  rw [if_neg]
  rintro ⟨h1, h2⟩
  rcases h with h | h
  · exact h h1
  · exact h h2

/-- Writing a value into a cell and then writing back what the cell held restores the array. -/
theorem setCell_undo {α : Type} (a : Fin 9 → Fin 9 → α) (row col : Fin 9) (v w : α)
    (h : a row col = w) : setCell (setCell a row col v) row col w = a := by
  funext r c
  unfold setCell
  by_cases hrc : r = row ∧ c = col
  · rw [if_pos hrc, hrc.1, hrc.2, h]
  · rw [if_neg hrc, if_neg hrc]

/-! ## The row-major scan -/

theorem mem_idx9 (x : Fin 9) : x ∈ idx9 := by
  revert x
  decide

theorem mem_idx3 (x : Fin 3) : x ∈ idx3 := by
  revert x
  decide

theorem idx9_before (l1 l2 : List (Fin 9)) (a x : Fin 9) (h : idx9 = l1 ++ a :: l2)
    (hx : x < a) : x ∈ l1 := by
  have hp : List.Pairwise (fun u v : Fin 9 => u < v) idx9 := by decide
  rw [h, List.pairwise_append, List.pairwise_cons] at hp
  have hm : x ∈ l1 ++ a :: l2 := h ▸ mem_idx9 x
  rcases List.mem_append.1 hm with h1 | h1
  · exact h1
  · rcases List.mem_cons.1 h1 with h2 | h2
    · exact absurd (h2 ▸ hx) (lt_irrefl _)
    · exact absurd (lt_trans (hp.2.1.1 x h2) hx) (lt_irrefl _)

/-- The scan returns `none` only if no cell satisfies the test. -/
theorem firstCell_none (p : Fin 9 → Fin 9 → Bool) (h : firstCell p = none) (r c : Fin 9) :
    p r c = false := by
  unfold firstCell at h
  rw [List.findSome?_eq_none_iff] at h
  have h1 := h r (mem_idx9 r)
  rw [Option.map_eq_none', List.find?_eq_none] at h1
  simpa using h1 c (mem_idx9 c)

/-- The cell returned by the scan satisfies the test, and no cell before it in row-major
    order does. -/
theorem firstCell_some (p : Fin 9 → Fin 9 → Bool) (r c : Fin 9) (h : firstCell p = some (r, c)) :
    p r c = true ∧ ∀ r2 c2, (r2 < r ∨ (r2 = r ∧ c2 < c)) → p r2 c2 = false := by
  unfold firstCell at h
  rw [List.findSome?_eq_some_iff] at h
  obtain ⟨l1, a, l2, hl, ha, hbefore⟩ := h
  rw [Option.map_eq_some'] at ha
  obtain ⟨c0, hc0, hpair⟩ := ha
  have har : a = r := congrArg Prod.fst hpair
  have hcc : c0 = c := congrArg Prod.snd hpair
  subst har
  subst hcc
  rw [List.find?_eq_some] at hc0
  obtain ⟨hp, m1, m2, hm, hcols⟩ := hc0
  refine ⟨hp, ?_⟩
  intro r2 c2 hlt
  rcases hlt with hlt | ⟨rfl, hlt⟩
  · have h1 := hbefore r2 (idx9_before l1 l2 a r2 hl hlt)
    rw [Option.map_eq_none', List.find?_eq_none] at h1
    simpa using h1 c2 (mem_idx9 c2)
  · simpa using hcols c2 (idx9_before m1 m2 c0 c2 hm hlt)

/-- If some cell satisfies the test, the scan returns a cell. -/
theorem firstCell_isSome (p : Fin 9 → Fin 9 → Bool) (r c : Fin 9) (h : p r c = true) :
    ∃ r0 c0, firstCell p = some (r0, c0) := by
  cases hf : firstCell p with
  | none => rw [firstCell_none p hf r c] at h; exact absurd h (by decide)
  | some q => exact ⟨q.1, q.2, rfl⟩

theorem findEmptyCell_some (g : Grid) (row col : Fin 9) (h : findEmptyCell g = some (row, col)) :
    g row col = 0 := by
  have h1 := (firstCell_some _ row col h).1
  simpa using h1

theorem findEmptyCell_none (g : Grid) (h : findEmptyCell g = none) : NoZero g := by
  intro r c
  have h1 := firstCell_none _ h r c
  simpa using h1

/-! ## A failed search restores the grid -/

theorem tryNums_skip (solve : Grid → Option (Bool × Grid)) (row col : Fin 9) (num : Int)
    (rest : List Int) (g : Grid) (hv : isValidPlacement g row col num = false) :
    tryNums solve row col (num :: rest) g = tryNums solve row col rest g := by
  simp [tryNums, hv]

theorem tryNums_none (solve : Grid → Option (Bool × Grid)) (row col : Fin 9) (num : Int)
    (rest : List Int) (g : Grid) (hv : isValidPlacement g row col num = true)
    (hs : solve (setCell g row col num) = none) :
    tryNums solve row col (num :: rest) g = none := by
  simp [tryNums, hv, hs]

theorem tryNums_found (solve : Grid → Option (Bool × Grid)) (row col : Fin 9) (num : Int)
    (rest : List Int) (g g1 : Grid) (hv : isValidPlacement g row col num = true)
    (hs : solve (setCell g row col num) = some (true, g1)) :
    tryNums solve row col (num :: rest) g = some (true, g1) := by
  simp [tryNums, hv, hs]

theorem tryNums_back (solve : Grid → Option (Bool × Grid)) (row col : Fin 9) (num : Int)
    (rest : List Int) (g g1 : Grid) (hv : isValidPlacement g row col num = true)
    (hs : solve (setCell g row col num) = some (false, g1)) :
    tryNums solve row col (num :: rest) g = tryNums solve row col rest (setCell g1 row col 0) := by
  simp [tryNums, hv, hs]

theorem tryNums_false (solve : Grid → Option (Bool × Grid)) (row col : Fin 9)
    (hrec : ∀ x y, solve x = some (false, y) → y = x) :
    ∀ (l : List Int) (g g2 : Grid), g row col = 0 →
      tryNums solve row col l g = some (false, g2) → g2 = g := by
  intro l
  induction l with
  | nil =>
    intro g g2 _ h
    simp only [tryNums, Option.some.injEq, Prod.mk.injEq, true_and] at h
    exact h.symm
  | cons num rest ih =>
    intro g g2 h0 h
    cases hv : isValidPlacement g row col num with
    | false =>
      rw [tryNums_skip solve row col num rest g hv] at h
      exact ih g g2 h0 h
    | true =>
      cases hs : solve (setCell g row col num) with
      | none =>
        rw [tryNums_none solve row col num rest g hv hs] at h
        exact absurd h (by simp)
      | some res =>
        obtain ⟨b, g1⟩ := res
        cases b with
        | true =>
          rw [tryNums_found solve row col num rest g g1 hv hs] at h
          simp at h
        | false =>
          rw [tryNums_back solve row col num rest g g1 hv hs, hrec _ _ hs,
            setCell_undo g row col num 0 h0] at h
          exact ih g g2 h0 h

theorem solveFuel_false : ∀ (fuel : Nat) (g g2 : Grid),
    solveFuel fuel g = some (false, g2) → g2 = g := by
  intro fuel
  induction fuel with
  | zero => intro g g2 h; simp [solveFuel] at h
  | succ n ih =>
    intro g g2 h
    unfold solveFuel at h
    cases he : findEmptyCell g with
    | none => rw [he] at h; simp at h
    | some q =>
      obtain ⟨row, col⟩ := q
      rw [he] at h
      exact tryNums_false (solveFuel n) row col ih candidates g g2
        (findEmptyCell_some g row col he) h

/-! ## What the conflict check inspects -/

theorem boxCell_div (x : Fin 9) (i : Fin 3) : (boxCell x i).val / 3 = x.val / 3 := by
  revert x i
  decide

theorem boxCell_mod (x r : Fin 9) (h : r.val / 3 = x.val / 3) :
    boxCell x ⟨r.val % 3, Nat.mod_lt _ (by decide)⟩ = r := by
  revert x r
  decide

theorem related_symm (r1 c1 r2 c2 : Fin 9) (h : Related r1 c1 r2 c2) : Related r2 c2 r1 c1 := by
  rcases h with h | h | h
  · exact Or.inl h.symm
  · exact Or.inr (Or.inl h.symm)
  · exact Or.inr (Or.inr ⟨h.1.symm, h.2.symm⟩)

/-- The check succeeds exactly when `num` stands in no cell of the row, the column and the
    box of `(row, col)`; the cell `(row, col)` itself is one of the cells read. -/
theorem isValidPlacement_iff (g : Grid) (row col : Fin 9) (num : Int) :
    isValidPlacement g row col num = true ↔ ∀ r c, Related row col r c → g r c ≠ num := by
  unfold isValidPlacement
  simp only [Bool.and_eq_true, List.all_eq_true, Bool.not_eq_true', Bool.or_eq_false_iff,
    beq_eq_false_iff_ne, ne_eq]
  constructor
  · rintro ⟨hline, hbox⟩ r c hrel
    rcases hrel with h | h | h
    · rw [h]; exact (hline c (mem_idx9 c)).1
    · rw [h]; exact (hline r (mem_idx9 r)).2
    · have h1 := hbox ⟨r.val % 3, Nat.mod_lt _ (by decide)⟩ (mem_idx3 _)
        ⟨c.val % 3, Nat.mod_lt _ (by decide)⟩ (mem_idx3 _)
      rw [boxCell_mod row r h.1, boxCell_mod col c h.2] at h1
      exact h1
  · intro h
    refine ⟨fun i _ => ⟨h row i (Or.inl rfl), h i col (Or.inr (Or.inl rfl))⟩, ?_⟩
    intro i _ j _
    exact h _ _ (Or.inr (Or.inr ⟨boxCell_div row i, boxCell_div col j⟩))

theorem isValid_eq_isValidPlacement (g : Grid) (row col : Fin 9) (num : Int) :
    isValid g row col num = isValidPlacement g row col num := rfl

/-- The conflict check returns true exactly when none of the cells it reads holds `num`. -/
theorem isValid_eq_all_inspected (g : Grid) (row col : Fin 9) (num : Int) :
    isValid g row col num = (inspected row col).all fun q => !(g q.1 q.2 == num) := by
  simp only [isValid, inspected, List.all_append, List.all_flatMap, Bool.not_or,
    List.all_cons, List.all_nil, Bool.and_true]
  rfl

/-- The cells read for `(row, col)` are the cells of its row, its column and its box. -/
theorem mem_inspected (row col r c : Fin 9) :
    (r, c) ∈ inspected row col ↔ Related row col r c := by
  unfold inspected
  rw [List.mem_append, List.mem_flatMap, List.mem_flatMap]
  constructor
  · rintro (⟨i, _, hi⟩ | ⟨i, _, hi⟩)
    · simp only [List.mem_cons, Prod.mk.injEq, List.mem_singleton, List.not_mem_nil,
        or_false] at hi
      rcases hi with ⟨h1, _⟩ | ⟨_, h2⟩
      · exact Or.inl h1
      · exact Or.inr (Or.inl h2)
    · rw [List.mem_map] at hi
      obtain ⟨j, _, hj⟩ := hi
      have h1 : boxCell row i = r := congrArg Prod.fst hj
      have h2 : boxCell col j = c := congrArg Prod.snd hj
      exact Or.inr (Or.inr ⟨h1 ▸ boxCell_div row i, h2 ▸ boxCell_div col j⟩)
  · rintro (h | h | h)
    · exact Or.inl ⟨c, mem_idx9 c, by simp [h]⟩
    · exact Or.inl ⟨r, mem_idx9 r, by simp [h]⟩
    · refine Or.inr ⟨⟨r.val % 3, Nat.mod_lt _ (by decide)⟩, mem_idx3 _, ?_⟩
      rw [List.mem_map]
      refine ⟨⟨c.val % 3, Nat.mod_lt _ (by decide)⟩, mem_idx3 _, ?_⟩
      rw [boxCell_mod row r h.1, boxCell_mod col c h.2]

theorem conflict_iff_exists (g : Grid) (row col : Fin 9) (num : Int) :
    isValid g row col num = false ↔ ∃ r c, Related row col r c ∧ g r c = num := by
  rw [← Bool.not_eq_true, isValid_eq_isValidPlacement, isValidPlacement_iff]
  push_neg
  rfl

/-! ## A successful search ends in a complete valid grid -/

theorem inRange_place (g : Grid) (row col : Fin 9) (num : Int) (hr : InRange g)
    (h1 : 0 ≤ num) (h9 : num ≤ 9) : InRange (setCell g row col num) := by
  intro r c
  unfold setCell
  by_cases h : r = row ∧ c = col
  · rw [if_pos h]; exact ⟨h1, h9⟩
  · rw [if_neg h]; exact hr r c

theorem noConflict_place (g : Grid) (row col : Fin 9) (num : Int) (hnc : NoConflict g)
    (hv : isValidPlacement g row col num = true) : NoConflict (setCell g row col num) := by
  rw [isValidPlacement_iff] at hv
  intro r1 c1 r2 c2 hne hrel hnz
  by_cases h1 : r1 = row ∧ c1 = col
  · obtain ⟨rfl, rfl⟩ := h1
    rw [setCell_same, setCell_other _ _ _ _ _ _ hne]
    exact hv r2 c2 hrel
  · have h1o : r1 ≠ row ∨ c1 ≠ col := by
      by_cases hr : r1 = row
      · exact Or.inr fun hc => h1 ⟨hr, hc⟩
      · exact Or.inl hr
    rw [setCell_other _ _ _ _ _ _ h1o] at hnz ⊢
    by_cases h2 : r2 = row ∧ c2 = col
    · obtain ⟨rfl, rfl⟩ := h2
      rw [setCell_same]
      exact fun he => hv r1 c1 (related_symm _ _ _ _ hrel) he.symm
    · have h2o : r2 ≠ row ∨ c2 ≠ col := by
        by_cases hr : r2 = row
        · exact Or.inr fun hc => h2 ⟨hr, hc⟩
        · exact Or.inl hr
      rw [setCell_other _ _ _ _ _ _ h2o]
      exact hnc r1 c1 r2 c2 hne hrel hnz

theorem agrees_place (g g2 : Grid) (row col : Fin 9) (num : Int) (h0 : g row col = 0)
    (h : Agrees (setCell g row col num) g2) : Agrees g g2 := by
  intro r c hnz
  have ho : r ≠ row ∨ c ≠ col := by
    by_cases hr : r = row
    · refine Or.inr fun hc => hnz ?_
      rw [hr, hc, h0]
    · exact Or.inl hr
  have h1 := h r c
  rw [setCell_other _ _ _ _ _ _ ho] at h1
  exact h1 hnz

theorem tryNums_true (solve : Grid → Option (Bool × Grid)) (row col : Fin 9)
    (hrecF : ∀ x y, solve x = some (false, y) → y = x)
    (hrecT : ∀ x y, InRange x → NoConflict x → solve x = some (true, y) →
      InRange y ∧ NoConflict y ∧ NoZero y ∧ Agrees x y) :
    ∀ (l : List Int) (g g2 : Grid), (∀ n ∈ l, 1 ≤ n ∧ n ≤ 9) → g row col = 0 →
      InRange g → NoConflict g → tryNums solve row col l g = some (true, g2) →
      InRange g2 ∧ NoConflict g2 ∧ NoZero g2 ∧ Agrees g g2 := by
  intro l
  induction l with
  | nil =>
    intro g g2 _ _ _ _ h
    simp [tryNums] at h
  | cons num rest ih =>
    intro g g2 hl h0 hr hnc h
    have hrest : ∀ n ∈ rest, 1 ≤ n ∧ n ≤ 9 := fun n hn => hl n (List.mem_cons_of_mem _ hn)
    have hnum := hl num (List.mem_cons_self _ _)
    cases hv : isValidPlacement g row col num with
    | false =>
      rw [tryNums_skip solve row col num rest g hv] at h
      exact ih g g2 hrest h0 hr hnc h
    | true =>
      cases hs : solve (setCell g row col num) with
      | none =>
        rw [tryNums_none solve row col num rest g hv hs] at h
        exact absurd h (by simp)
      | some res =>
        obtain ⟨b, g1⟩ := res
        cases b with
        | true =>
          rw [tryNums_found solve row col num rest g g1 hv hs] at h
          have hg : g1 = g2 := by simpa using h
          subst hg
          obtain ⟨a1, a2, a3, a4⟩ := hrecT _ _
            (inRange_place g row col num hr (by omega) hnum.2)
            (noConflict_place g row col num hnc hv) hs
          exact ⟨a1, a2, a3, agrees_place g g1 row col num h0 a4⟩
        | false =>
          rw [tryNums_back solve row col num rest g g1 hv hs, hrecF _ _ hs,
            setCell_undo g row col num 0 h0] at h
          exact ih g g2 hrest h0 hr hnc h

theorem candidates_range : ∀ n ∈ candidates, 1 ≤ n ∧ n ≤ 9 := by
  decide

theorem agrees_refl (g : Grid) : Agrees g g := fun _ _ _ => rfl

theorem solveFuel_true : ∀ (fuel : Nat) (g g2 : Grid), InRange g → NoConflict g →
    solveFuel fuel g = some (true, g2) →
    InRange g2 ∧ NoConflict g2 ∧ NoZero g2 ∧ Agrees g g2 := by
  intro fuel
  induction fuel with
  | zero => intro g g2 _ _ h; simp [solveFuel] at h
  | succ n ih =>
    intro g g2 hr hnc h
    unfold solveFuel at h
    cases he : findEmptyCell g with
    | none =>
      rw [he] at h
      have hg : g = g2 := by simpa using h
      subst hg
      exact ⟨hr, hnc, findEmptyCell_none g he, agrees_refl g⟩
    | some q =>
      obtain ⟨row, col⟩ := q
      rw [he] at h
      exact tryNums_true (solveFuel n) row col (solveFuel_false n) ih candidates g g2
        candidates_range (findEmptyCell_some g row col he) hr hnc h

/-! ## Nine different values out of 1..9 are all of 1..9 -/

theorem pigeon9 (f : Fin 9 → Int) (hr : ∀ k, 1 ≤ f k ∧ f k ≤ 9) (hinj : Function.Injective f)
    (v : Int) (h1 : 1 ≤ v) (h9 : v ≤ 9) : ∃ k, f k = v := by
  let h : Fin 9 → Fin 9 := fun k => ⟨(f k - 1).toNat, by have := hr k; omega⟩
  have hi : Function.Injective h := by
    intro a b hab
    have h2 : (f a - 1).toNat = (f b - 1).toNat := congrArg Fin.val hab
    have ha := hr a
    have hb := hr b
    exact hinj (by omega)
  obtain ⟨k, hk⟩ := (Finite.injective_iff_surjective.1 hi) ⟨(v - 1).toNat, by omega⟩
  refine ⟨k, ?_⟩
  have h2 : (f k - 1).toNat = (v - 1).toNat := congrArg Fin.val hk
  have := hr k
  omega

theorem boxEnum_inj (br bc : Fin 3) (a b : Fin 9) (h : boxEnum br bc a = boxEnum br bc b) :
    a = b := by
  revert br bc a b
  decide

theorem boxEnum_div (br bc : Fin 3) (k : Fin 9) :
    (boxEnum br bc k).1.val / 3 = br.val ∧ (boxEnum br bc k).2.val / 3 = bc.val := by
  revert br bc k
  decide

theorem ne_cell_of_ne {r1 c1 r2 c2 : Fin 9} (h : (r2, c2) ≠ (r1, c1)) : r2 ≠ r1 ∨ c2 ≠ c1 := by
  by_cases hr : r2 = r1
  · refine Or.inr fun hc => h ?_
    rw [hr, hc]
  · exact Or.inl hr

/-- In a grid without conflicts two related cells with the same nonzero value are the
    same cell. -/
theorem noConflict_eq (g : Grid) (hnc : NoConflict g) (r1 c1 r2 c2 : Fin 9)
    (hrel : Related r1 c1 r2 c2) (hnz : g r1 c1 ≠ 0) (he : g r2 c2 = g r1 c1) :
    (r2, c2) = (r1, c1) := by
  by_contra hne
  exact hnc r1 c1 r2 c2 (ne_cell_of_ne hne) hrel hnz he

theorem eachOnce_of_noConflict (g : Grid) (hr : InRange g) (hz : NoZero g)
    (hnc : NoConflict g) : EachOnce g := by
  have hpos : ∀ r c, 1 ≤ g r c ∧ g r c ≤ 9 := by
    intro r c
    have h1 := hr r c
    have h2 := hz r c
    omega
  intro v h1 h9
  refine ⟨?_, ?_, ?_⟩
  · intro r
    have hinj : Function.Injective (fun c => g r c) := by
      intro a b hab
      exact congrArg Prod.snd
        (noConflict_eq g hnc r b r a (Or.inl rfl) (hz r b) hab)
    obtain ⟨c, hc⟩ := pigeon9 (fun c => g r c) (hpos r) hinj v h1 h9
    exact ⟨c, hc, fun y hy => hinj (hy.trans hc.symm)⟩
  · intro c
    have hinj : Function.Injective (fun r => g r c) := by
      intro a b hab
      exact congrArg Prod.fst
        (noConflict_eq g hnc b c a c (Or.inr (Or.inl rfl)) (hz b c) hab)
    obtain ⟨r, hr1⟩ := pigeon9 (fun r => g r c) (fun r => hpos r c) hinj v h1 h9
    exact ⟨r, hr1, fun y hy => hinj (hy.trans hr1.symm)⟩
  · intro br bc
    have hinj : Function.Injective
        (fun k => g (boxEnum br bc k).1 (boxEnum br bc k).2) := by
      intro a b hab
      have hb := boxEnum_div br bc b
      have ha := boxEnum_div br bc a
      have hcell := noConflict_eq g hnc (boxEnum br bc b).1 (boxEnum br bc b).2
        (boxEnum br bc a).1 (boxEnum br bc a).2
        (Or.inr (Or.inr ⟨ha.1.trans hb.1.symm, ha.2.trans hb.2.symm⟩)) (hz _ _) hab
      exact boxEnum_inj br bc a b hcell
    obtain ⟨k, hk⟩ := pigeon9 _ (fun k => hpos _ _) hinj v h1 h9
    refine ⟨boxEnum br bc k, ⟨boxEnum_div br bc k, hk⟩, ?_⟩
    rintro ⟨r, c⟩ ⟨⟨hbr, hbc⟩, hval⟩
    have hd := boxEnum_div br bc k
    exact noConflict_eq g hnc (boxEnum br bc k).1 (boxEnum br bc k).2 r c
      (Or.inr (Or.inr ⟨hbr.trans hd.1.symm, hbc.trans hd.2.symm⟩)) (hz _ _)
      (hval.trans hk.symm)

/-- A grid without zero cells, with entries in 0..9 and without conflicts is a complete
    valid Sudoku grid. -/
theorem solved_of_noConflict (g : Grid) (hr : InRange g) (hz : NoZero g) (hnc : NoConflict g) :
    Solved g :=
  ⟨hz, eachOnce_of_noConflict g hr hz hnc⟩

/-- The entries of a complete valid Sudoku grid lie in 1..9. -/
theorem solved_range (g : Grid) (hs : Solved g) (r c : Fin 9) : 1 ≤ g r c ∧ g r c ≤ 9 := by
  have hrow : ∀ k : Fin 9, ∃ c0, g r c0 = (k.val : Int) + 1 := fun k =>
    (hs.2 ((k.val : Int) + 1) (by omega) (by have := k.isLt; omega)).1 r |>.exists
  choose col hcol using hrow
  have hinj : Function.Injective col := by
    intro a b hab
    have h1 := hcol a
    rw [hab, hcol b] at h1
    exact Fin.ext (by omega)
  obtain ⟨k, hk⟩ := (Finite.injective_iff_surjective.1 hinj) c
  have h2 := hcol k
  rw [hk] at h2
  have := k.isLt
  omega

/-- A complete valid Sudoku grid has no conflicts. -/
theorem solved_noConflict (g : Grid) (hs : Solved g) : NoConflict g := by
  intro r1 c1 r2 c2 hne hrel _ he
  obtain ⟨h1, h9⟩ := solved_range g hs r1 c1
  obtain ⟨hrow, hcol, hbox⟩ := hs.2 (g r1 c1) h1 h9
  rcases hrel with h | h | h
  · subst h
    have := (hrow r2).unique he rfl
    rcases hne with hne | hne
    · exact hne rfl
    · exact hne this
  · subst h
    have := (hcol c2).unique he rfl
    rcases hne with hne | hne
    · exact hne this
    · exact hne rfl
  · have hb3 : r1.val / 3 < 3 := by have := r1.isLt; omega
    have hc3 : c1.val / 3 < 3 := by have := c1.isLt; omega
    have this : ((r2, c2) : Fin 9 × Fin 9) = (r1, c1) :=
      (hbox ⟨r1.val / 3, hb3⟩ ⟨c1.val / 3, hc3⟩).unique ⟨⟨h.1, h.2⟩, he⟩ ⟨⟨rfl, rfl⟩, rfl⟩
    have hr := congrArg Prod.fst this
    have hc := congrArg Prod.snd this
    rcases hne with hne | hne
    · exact hne hr
    · exact hne hc

/-! ## The search returns: every nested call works on a grid with fewer empty cells -/

theorem emptyCount_le (g : Grid) : emptyCount g ≤ 81 := by
  unfold emptyCount
  exact (Finset.card_filter_le _ _).trans (by decide)

theorem emptyCount_place (g : Grid) (row col : Fin 9) (num : Int) (h0 : g row col = 0)
    (hn : num ≠ 0) : emptyCount (setCell g row col num) + 1 = emptyCount g := by
  unfold emptyCount
  have hmem : (row, col) ∈ Finset.univ.filter fun p : Fin 9 × Fin 9 => g p.1 p.2 = 0 := by
    simp [h0]
  have heq : (Finset.univ.filter fun p : Fin 9 × Fin 9 => setCell g row col num p.1 p.2 = 0)
      = (Finset.univ.filter fun p : Fin 9 × Fin 9 => g p.1 p.2 = 0).erase (row, col) := by
    ext ⟨r, c⟩
    simp only [Finset.mem_filter, Finset.mem_univ, true_and, Finset.mem_erase, ne_eq,
      Prod.mk.injEq]
    unfold setCell
    by_cases h : r = row ∧ c = col
    · rw [if_pos h]
      exact ⟨fun h1 => absurd h1 hn, fun h1 => absurd h h1.1⟩
    · rw [if_neg h]
      exact ⟨fun h1 => ⟨h, h1⟩, fun h1 => h1.2⟩
  rw [heq, Finset.card_erase_of_mem hmem]
  have : 0 < (Finset.univ.filter fun p : Fin 9 × Fin 9 => g p.1 p.2 = 0).card :=
    Finset.card_pos.2 ⟨_, hmem⟩
  omega

theorem tryNums_isSome (solve : Grid → Option (Bool × Grid)) (row col : Fin 9) (n : Nat)
    (hrecF : ∀ x y, solve x = some (false, y) → y = x)
    (hrecS : ∀ x, emptyCount x < n → ∃ res, solve x = some res) :
    ∀ (l : List Int) (g : Grid), (∀ m ∈ l, m ≠ 0) → g row col = 0 → emptyCount g ≤ n →
      ∃ res, tryNums solve row col l g = some res := by
  intro l
  induction l with
  | nil => intro g _ _ _; exact ⟨_, rfl⟩
  | cons num rest ih =>
    intro g hl h0 hc
    have hrest : ∀ m ∈ rest, m ≠ 0 := fun m hm => hl m (List.mem_cons_of_mem _ hm)
    cases hv : isValidPlacement g row col num with
    | false =>
      rw [tryNums_skip solve row col num rest g hv]
      exact ih g hrest h0 hc
    | true =>
      have hcnt := emptyCount_place g row col num h0 (hl num (List.mem_cons_self _ _))
      obtain ⟨res, hs⟩ := hrecS (setCell g row col num) (by omega)
      obtain ⟨b, g1⟩ := res
      cases b with
      | true => exact ⟨_, tryNums_found solve row col num rest g g1 hv hs⟩
      | false =>
        rw [tryNums_back solve row col num rest g g1 hv hs, hrecF _ _ hs,
          setCell_undo g row col num 0 h0]
        exact ih g hrest h0 hc

theorem candidates_ne_zero : ∀ m ∈ candidates, m ≠ 0 := by
  decide

/-- With more fuel than empty cells the search returns. -/
theorem solveFuel_isSome : ∀ (fuel : Nat) (g : Grid), emptyCount g < fuel →
    ∃ res, solveFuel fuel g = some res := by
  intro fuel
  induction fuel with
  | zero => intro g h; exact absurd h (Nat.not_lt_zero _)
  | succ n ih =>
    intro g h
    unfold solveFuel
    cases he : findEmptyCell g with
    | none => exact ⟨_, rfl⟩
    | some q =>
      obtain ⟨row, col⟩ := q
      exact tryNums_isSome (solveFuel n) row col n (solveFuel_false n) ih candidates g
        candidates_ne_zero (findEmptyCell_some g row col he) (by omega)

/-- `solveSudoku` returns on every grid. -/
theorem solveSudoku_terminates (g : Grid) : ∃ res, solveSudoku g = some res :=
  solveFuel_isSome 82 g (Nat.lt_succ_of_le (emptyCount_le g))

/-! ## The search finds a completion whenever there is one -/

theorem valid_of_completion (g S : Grid) (row col : Fin 9) (hS : Solved S) (ha : Agrees g S)
    (h0 : g row col = 0) : isValidPlacement g row col (S row col) = true := by
  rw [isValidPlacement_iff]
  intro r c hrel he
  have hv : S row col ≠ 0 := hS.1 row col
  have hg : g r c ≠ 0 := he ▸ hv
  have hSrc : S r c = S row col := (ha r c hg).trans he
  have hcell := noConflict_eq S (solved_noConflict S hS) row col r c hrel hv hSrc
  have hr := congrArg Prod.fst hcell
  have hc := congrArg Prod.snd hcell
  simp only at hr hc
  rw [hr, hc, h0] at hg
  exact hg rfl

theorem agrees_fill (g S : Grid) (row col : Fin 9) (ha : Agrees g S) :
    Agrees (setCell g row col (S row col)) S := by
  intro r c hnz
  unfold setCell at hnz ⊢
  by_cases h : r = row ∧ c = col
  · rw [if_pos h, h.1, h.2]
  · rw [if_neg h] at hnz ⊢
    exact ha r c hnz

theorem tryNums_complete (solve : Grid → Option (Bool × Grid)) (row col : Fin 9) (n : Nat)
    (S : Grid) (hS : Solved S)
    (hrecF : ∀ x y, solve x = some (false, y) → y = x)
    (hrecS : ∀ x, emptyCount x < n → ∃ res, solve x = some res)
    (hrecC : ∀ x, emptyCount x < n → Agrees x S → ∃ y, solve x = some (true, y)) :
    ∀ (l : List Int) (g : Grid), (∀ m ∈ l, m ≠ 0) → g row col = 0 → emptyCount g ≤ n →
      Agrees g S → S row col ∈ l → ∃ g2, tryNums solve row col l g = some (true, g2) := by
  intro l
  induction l with
  | nil => intro g _ _ _ _ hm; exact absurd hm (List.not_mem_nil _)
  | cons num rest ih =>
    intro g hl h0 hc ha hm
    have hrest : ∀ m ∈ rest, m ≠ 0 := fun m hm => hl m (List.mem_cons_of_mem _ hm)
    cases hv : isValidPlacement g row col num with
    | false =>
      rw [tryNums_skip solve row col num rest g hv]
      refine ih g hrest h0 hc ha ?_
      rcases List.mem_cons.1 hm with h | h
      · rw [← h, valid_of_completion g S row col hS ha h0] at hv
        exact absurd hv (by decide)
      · exact h
    | true =>
      have hcnt := emptyCount_place g row col num h0 (hl num (List.mem_cons_self _ _))
      obtain ⟨res, hs⟩ := hrecS (setCell g row col num) (by omega)
      obtain ⟨b, g1⟩ := res
      cases b with
      | true => exact ⟨g1, tryNums_found solve row col num rest g g1 hv hs⟩
      | false =>
        rw [tryNums_back solve row col num rest g g1 hv hs, hrecF _ _ hs,
          setCell_undo g row col num 0 h0]
        refine ih g hrest h0 hc ha ?_
        rcases List.mem_cons.1 hm with h | h
        · obtain ⟨y, hy⟩ := hrecC (setCell g row col num) (by omega)
            (h ▸ agrees_fill g S row col ha)
          rw [hs] at hy
          simp at hy
        · exact h

theorem mem_candidates (v : Int) (h1 : 1 ≤ v) (h9 : v ≤ 9) : v ∈ candidates := by
  have : v = 1 ∨ v = 2 ∨ v = 3 ∨ v = 4 ∨ v = 5 ∨ v = 6 ∨ v = 7 ∨ v = 8 ∨ v = 9 := by omega
  simpa [candidates] using this

/-- With more fuel than empty cells the search succeeds on every grid that has a
    completion. -/
theorem solveFuel_complete : ∀ (fuel : Nat) (g S : Grid), emptyCount g < fuel → Solved S →
    Agrees g S → ∃ g2, solveFuel fuel g = some (true, g2) := by
  intro fuel
  induction fuel with
  | zero => intro g S h; exact absurd h (Nat.not_lt_zero _)
  | succ n ih =>
    intro g S h hS ha
    unfold solveFuel
    cases he : findEmptyCell g with
    | none => exact ⟨_, rfl⟩
    | some q =>
      obtain ⟨row, col⟩ := q
      have hr := solved_range S hS row col
      exact tryNums_complete (solveFuel n) row col n S hS (solveFuel_false n)
        (solveFuel_isSome n) (fun x hx hax => ih x S hx hS hax) candidates g
        candidates_ne_zero (findEmptyCell_some g row col he) (by omega) ha
        (mem_candidates _ hr.1 hr.2)

/-! ## The run of the solver on the all-zero grid -/

set_option maxRecDepth 100000 in
/-- On the all-zero grid the solver returns true and leaves `firstSolution`: the search is
    evaluated step by step (392 calls). -/
theorem solveSudoku_emptyGrid : solveSudoku emptyGrid = some (true, firstSolution) := by
  decide!

theorem inRange_emptyGrid : InRange emptyGrid := by
  intro r c
  show (0 : Int) ≤ 0 ∧ (0 : Int) ≤ 9
  decide

theorem noConflict_emptyGrid : NoConflict emptyGrid := fun _ _ _ _ _ _ h => absurd rfl h

/-! ## The generator -/

theorem nonzeroCount_clear (g : Grid) (row col : Fin 9) (h : g row col ≠ 0) :
    nonzeroCount (setCell g row col 0) + 1 = nonzeroCount g := by
  unfold nonzeroCount
  have hmem : (row, col) ∈ Finset.univ.filter fun p : Fin 9 × Fin 9 => g p.1 p.2 ≠ 0 := by
    simp [h]
  have heq : (Finset.univ.filter fun p : Fin 9 × Fin 9 => setCell g row col 0 p.1 p.2 ≠ 0)
      = (Finset.univ.filter fun p : Fin 9 × Fin 9 => g p.1 p.2 ≠ 0).erase (row, col) := by
    ext ⟨r, c⟩
    simp only [Finset.mem_filter, Finset.mem_univ, true_and, Finset.mem_erase, ne_eq,
      Prod.mk.injEq]
    unfold setCell
    by_cases h1 : r = row ∧ c = col
    · rw [if_pos h1]
      exact ⟨fun h2 => absurd rfl h2, fun h2 => absurd h1 h2.1⟩
    · rw [if_neg h1]
      exact ⟨fun h2 => ⟨h1, h2⟩, fun h2 => h2.2⟩
  rw [heq, Finset.card_erase_of_mem hmem]
  have : 0 < (Finset.univ.filter fun p : Fin 9 × Fin 9 => g p.1 p.2 ≠ 0).card :=
    Finset.card_pos.2 ⟨_, hmem⟩
  omega

theorem nonzeroCount_of_noZero (g : Grid) (h : NoZero g) : nonzeroCount g = 81 := by
  unfold nonzeroCount
  have hall : (Finset.univ.filter fun p : Fin 9 × Fin 9 => g p.1 p.2 ≠ 0) = Finset.univ :=
    Finset.filter_true_of_mem fun p _ => h p.1 p.2
  rw [hall]
  rfl

/-- What the removal loop does when it ends: it has cleared exactly `n` cells that were
    nonzero, marked them editable and touched nothing else. -/
theorem removeLoop_spec (n : Nat) (rs : List Nat) (d : GameData) :
    ∀ d2, removeLoop n rs d = some d2 →
      nonzeroCount d2.board + n = nonzeroCount d.board ∧
      d2.solution = d.solution ∧ d2.hintsUsed = d.hintsUsed ∧
      d2.wrongAttempts = d.wrongAttempts ∧
      (∀ r c, d2.board r c ≠ 0 → d2.board r c = d.board r c) ∧
      ((∀ r c, d.fixed r c = true ↔ d.board r c ≠ 0) →
        ∀ r c, d2.fixed r c = true ↔ d2.board r c ≠ 0) := by
  induction n, rs, d using removeLoop.induct with
  | case1 rs d =>
    intro d2 h
    simp only [removeLoop, Option.some.injEq] at h
    subst h
    exact ⟨rfl, rfl, rfl, rfl, fun _ _ _ => rfl, fun h => h⟩
  | case2 n d => intro d2 h; simp [removeLoop] at h
  | case3 n a d => intro d2 h; simp [removeLoop] at h
  | case4 n a b rest d row col hnz ih =>
    intro d2 h
    rw [removeLoop] at h
    rw [if_pos hnz] at h
    obtain ⟨h1, h2, h3, h4, h5, h6⟩ := ih d2 h
    have hc := nonzeroCount_clear d.board row col hnz
    simp only at h1 h2 h3 h4 h5 h6
    refine ⟨by omega, h2, h3, h4, ?_, ?_⟩
    · intro r c hrc
      rw [h5 r c hrc]
      by_cases hcell : r = row ∧ c = col
      · have h7 := h5 r c hrc
        rw [hcell.1, hcell.2, setCell_same] at h7
        rw [hcell.1, hcell.2] at hrc
        exact absurd h7 hrc
      · unfold setCell
        rw [if_neg hcell]
    · intro hfix
      apply h6
      intro r c
      unfold setCell
      by_cases hcell : r = row ∧ c = col
      · rw [if_pos hcell, if_pos hcell]
        simp
      · rw [if_neg hcell, if_neg hcell]
        exact hfix r c
  | case5 n a b rest d row col hz ih =>
    intro d2 h
    rw [removeLoop] at h
    rw [if_neg hz] at h
    exact ih d2 h

theorem generateSolution_eq (d : GameData) (b : Bool) (g : Grid)
    (h : solveSudoku d.solution = some (b, g)) :
    generateSolution d = some { d with solution := g } := by
  unfold generateSolution
  rw [h]
  rfl

theorem generateSudoku_eq (r0 : Nat) (rest : List Nat) (d d1 : GameData)
    (h : generateSolution d = some d1) :
    generateSudoku (r0 :: rest) d = removeLoop (40 + r0 % 15) rest
      { d1 with board := d1.solution, fixed := fun _ _ => true } := by
  unfold generateSudoku
  rw [h]

theorem generateSudoku_nil (d : GameData) : generateSudoku [] d = none := by
  unfold generateSudoku
  cases generateSolution d <;> rfl

theorem generateSolution_blankData :
    generateSolution blankData = some { blankData with solution := firstSolution } :=
  generateSolution_eq blankData true firstSolution solveSudoku_emptyGrid

/-- The board and the mask of a fresh game before the removal loop. -/
theorem SudokuGame_eq (r0 : Nat) (rest : List Nat) :
    SudokuGame (r0 :: rest) = removeLoop (40 + r0 % 15) rest
      { board := firstSolution, fixed := fun _ _ => true, hintsUsed := 0, wrongAttempts := 0,
        solution := firstSolution } :=
  generateSudoku_eq r0 rest blankData _ generateSolution_blankData

theorem SudokuGame_nil : SudokuGame [] = none :=
  generateSudoku_nil _

/-- The state of a freshly constructed game. -/
theorem SudokuGame_spec (r0 : Nat) (rest : List Nat) (d : GameData)
    (h : SudokuGame (r0 :: rest) = some d) :
    d.solution = firstSolution ∧ d.hintsUsed = 0 ∧ d.wrongAttempts = 0 ∧
      nonzeroCount d.board + (40 + r0 % 15) = 81 ∧
      (∀ r c, d.board r c ≠ 0 → d.board r c = firstSolution r c) ∧
      (∀ r c, d.fixed r c = true ↔ d.board r c ≠ 0) := by
  have hsol := solveFuel_true 82 emptyGrid firstSolution inRange_emptyGrid
    noConflict_emptyGrid solveSudoku_emptyGrid
  rw [SudokuGame_eq] at h
  obtain ⟨h1, h2, h3, h4, h5, h6⟩ := removeLoop_spec _ _ _ d h
  simp only at h1 h2 h3 h4 h5 h6
  rw [nonzeroCount_of_noZero firstSolution hsol.2.2.1] at h1
  refine ⟨h2, h3, h4, h1, h5, h6 fun r c => ?_⟩
  simp [hsol.2.2.1 r c]

set_option maxRecDepth 100000 in
/-- The construction of a game from `exampleRand`, evaluated. -/
theorem SudokuGame_exampleRand : SudokuGame exampleRand = some exampleGame := by
  unfold exampleRand
  rw [SudokuGame_eq]
  decide!

theorem agrees_inRange (g S : Grid) (hS : Solved S) (ha : Agrees g S) : InRange g := by
  intro r c
  by_cases h : g r c = 0
  · rw [h]; decide
  · rw [← ha r c h]
    have := solved_range S hS r c
    omega

theorem agrees_noConflict (g S : Grid) (hS : Solved S) (ha : Agrees g S) : NoConflict g := by
  intro r1 c1 r2 c2 hne hrel hnz he
  have hnz2 : g r2 c2 ≠ 0 := he ▸ hnz
  have h1 := ha r1 c1 hnz
  have h2 := ha r2 c2 hnz2
  have hS1 : S r1 c1 ≠ 0 := hS.1 r1 c1
  exact solved_noConflict S hS r1 c1 r2 c2 hne hrel hS1 (by rw [h1, h2, he])

/-- What `generateSudoku` leaves when it returns, on a state whose solution grid can be
    completed. -/
theorem generateSudoku_spec (rs : List Nat) (d d2 : GameData)
    (hS : ∃ S, Solved S ∧ Agrees d.solution S) (h : generateSudoku rs d = some d2) :
    ∃ r0 rest, rs = r0 :: rest ∧ NoZero d2.solution ∧
      nonzeroCount d2.board + (40 + r0 % 15) = 81 ∧
      (∀ r c, d2.board r c ≠ 0 → d2.board r c = d2.solution r c) ∧
      (∀ r c, d2.fixed r c = true ↔ d2.board r c ≠ 0) := by
  obtain ⟨S, hSol, ha⟩ := hS
  cases rs with
  | nil => rw [generateSudoku_nil] at h; exact absurd h (by simp)
  | cons r0 rest =>
    obtain ⟨g, hg⟩ := solveFuel_complete 82 d.solution S
      (Nat.lt_succ_of_le (emptyCount_le _)) hSol ha
    have hz : NoZero g := (solveFuel_true 82 d.solution g (agrees_inRange _ S hSol ha)
      (agrees_noConflict _ S hSol ha) hg).2.2.1
    rw [generateSudoku_eq r0 rest d _ (generateSolution_eq d true g hg)] at h
    obtain ⟨h1, h2, _, _, h5, h6⟩ := removeLoop_spec _ _ _ d2 h
    simp only at h1 h2 h5 h6
    rw [nonzeroCount_of_noZero g hz] at h1
    refine ⟨r0, rest, rfl, by rw [h2]; exact hz, h1, ?_, h6 fun r c => ?_⟩
    · intro r c hrc
      rw [h2]
      exact h5 r c hrc
    · simp [hz r c]

theorem firstSolution_noZero : NoZero firstSolution :=
  (solveFuel_true 82 emptyGrid firstSolution inRange_emptyGrid noConflict_emptyGrid
    solveSudoku_emptyGrid).2.2.1

theorem firstSolution_solved : Solved firstSolution := by
  obtain ⟨a1, a2, a3, _⟩ := solveFuel_true 82 emptyGrid firstSolution inRange_emptyGrid
    noConflict_emptyGrid solveSudoku_emptyGrid
  exact solved_of_noConflict firstSolution a1 a3 a2

theorem agrees_emptyGrid (S : Grid) : Agrees emptyGrid S := fun _ _ h => absurd rfl h

/-! ## Moves through the game loop -/

theorem cellIndex_succ (r : Fin 9) : cellIndex ((r.val : Int) + 1) = r := by
  apply Fin.ext
  have h := r.isLt
  simp only [cellIndex]
  omega

theorem mainStep_move (canWrite : Bool) (rs : List Nat) (s : Session) (r c : Fin 9)
    (num : Int) (h1 : 1 ≤ num) (h9 : num ≤ 9) :
    mainStep canWrite rs s ((r.val : Int) + 1) ((c.val : Int) + 1) num =
      some ({ s with game := (playMove s.game ((r.val : Int) + 1) ((c.val : Int) + 1) num).1 },
        (playMove s.game ((r.val : Int) + 1) ((c.val : Int) + 1) num).2) := by
  have hr := r.isLt
  have hc := c.isLt
  unfold mainStep
  rw [if_neg (by omega), if_neg (by omega), if_neg (by omega), if_neg (by omega)]

theorem playMove_correct (d : GameData) (r c : Fin 9) (num : Int)
    (hfix : isFixed d r c = false) (hval : isValid d.board r c num = true)
    (hsol : num = d.solution r c) :
    playMove d ((r.val : Int) + 1) ((c.val : Int) + 1) num =
      (updateBoard d r c num, isComplete (updateBoard d r c num)) := by
  subst hsol
  unfold playMove
  rw [cellIndex_succ, cellIndex_succ]
  simp [hfix, hval, getSolutionAt]

theorem playMove_wrong (d : GameData) (r c : Fin 9) (num : Int)
    (hfix : isFixed d r c = false) (hval : isValid d.board r c num = true)
    (hsol : num ≠ d.solution r c) :
    playMove d ((r.val : Int) + 1) ((c.val : Int) + 1) num =
      (incrementWrongAttempts d,
        decide (getWrongAttempts (incrementWrongAttempts d) ≥ 3)) := by
  unfold playMove
  rw [cellIndex_succ, cellIndex_succ]
  simp [hfix, hval, getSolutionAt, hsol]

/-! ## Hints -/

/-- A cell that satisfies the test and has no cell before it in row-major order that
    satisfies the test is the cell the scan returns. -/
theorem firstCell_eq (p : Fin 9 → Fin 9 → Bool) (i j : Fin 9) (hp : p i j = true)
    (hmin : ∀ i2 j2, (i2 < i ∨ (i2 = i ∧ j2 < j)) → p i2 j2 = false) :
    firstCell p = some (i, j) := by
  obtain ⟨i0, j0, h0⟩ := firstCell_isSome p i j hp
  obtain ⟨hp0, hmin0⟩ := firstCell_some p i0 j0 h0
  have hi : i0 = i := by
    rcases lt_trichotomy i0 i with h | h | h
    · rw [hmin i0 j0 (Or.inl h)] at hp0; exact absurd hp0 (by decide)
    · exact h
    · rw [hmin0 i j (Or.inl h)] at hp; exact absurd hp (by decide)
  subst hi
  have hj : j0 = j := by
    rcases lt_trichotomy j0 j with h | h | h
    · rw [hmin i0 j0 (Or.inr ⟨rfl, h⟩)] at hp0; exact absurd hp0 (by decide)
    · exact h
    · rw [hmin0 i0 j (Or.inr ⟨rfl, h⟩)] at hp; exact absurd hp (by decide)
  rw [h0, hj]

theorem provideHint_some (d : GameData) (i j : Fin 9)
    (h : firstCell (fun i j => d.board i j == 0 && !d.fixed i j) = some (i, j)) :
    provideHint d =
      { d with board := setCell d.board i j (d.solution i j),
               fixed := setCell d.fixed i j true, hintsUsed := d.hintsUsed + 1 } := by
  unfold provideHint
  rw [h]

theorem provideHint_none (d : GameData)
    (h : firstCell (fun i j => d.board i j == 0 && !d.fixed i j) = none) :
    provideHint d = d := by
  unfold provideHint
  rw [h]

theorem editable_iff (d : GameData) (i j : Fin 9) :
    (d.board i j == 0 && !d.fixed i j) = true ↔ d.board i j = 0 ∧ d.fixed i j = false := by
  simp

/-! ## Hint requests through the game loop -/

theorem emptyCount_add_nonzeroCount (g : Grid) : emptyCount g + nonzeroCount g = 81 := by
  unfold emptyCount nonzeroCount
  rw [Finset.filter_card_add_filter_neg_card_eq_card]
  rfl

theorem candidates_before (l1 l2 : List Int) (a x : Int) (h : candidates = l1 ++ a :: l2)
    (hx : x ∈ candidates) (hlt : x < a) : x ∈ l1 := by
  have hp : List.Pairwise (fun u v : Int => u < v) candidates := by decide
  rw [h] at hx
  rw [h, List.pairwise_append, List.pairwise_cons] at hp
  rcases List.mem_append.1 hx with h1 | h1
  · exact h1
  · rcases List.mem_cons.1 h1 with h2 | h2
    · exact absurd (h2 ▸ hlt) (lt_irrefl _)
    · exact absurd (lt_trans (hp.2.1.1 x h2) hlt) (lt_irrefl _)

/-- A successful loop: some candidate passed the check and its recursive call succeeded,
    and every candidate tried before it was rejected by the check or failed. -/
theorem tryNums_true_split (solve : Grid → Option (Bool × Grid)) (row col : Fin 9)
    (hrecF : ∀ x y, solve x = some (false, y) → y = x) :
    ∀ (l : List Int) (g g2 : Grid), g row col = 0 →
      tryNums solve row col l g = some (true, g2) →
      ∃ l1 num l2, l = l1 ++ num :: l2 ∧ isValidPlacement g row col num = true ∧
        solve (setCell g row col num) = some (true, g2) ∧
        ∀ n ∈ l1, isValidPlacement g row col n = false ∨
          solve (setCell g row col n) = some (false, setCell g row col n) := by
  intro l
  induction l with
  | nil =>
    intro g g2 _ h
    simp [tryNums] at h
  | cons num rest ih =>
    intro g g2 h0 h
    cases hv : isValidPlacement g row col num with
    | false =>
      rw [tryNums_skip solve row col num rest g hv] at h
      obtain ⟨l1, m, l2, hl, h1, h2, h3⟩ := ih g g2 h0 h
      refine ⟨num :: l1, m, l2, by rw [hl]; rfl, h1, h2, ?_⟩
      intro n hn
      rcases List.mem_cons.1 hn with hn | hn
      · exact Or.inl (hn ▸ hv)
      · exact h3 n hn
    | true =>
      cases hs : solve (setCell g row col num) with
      | none =>
        rw [tryNums_none solve row col num rest g hv hs] at h
        exact absurd h (by simp)
      | some res =>
        obtain ⟨b, g1⟩ := res
        cases b with
        | true =>
          rw [tryNums_found solve row col num rest g g1 hv hs] at h
          have hg : g1 = g2 := by simpa using h
          subst hg
          exact ⟨[], num, rest, rfl, hv, hs, fun n hn => absurd hn (List.not_mem_nil _)⟩
        | false =>
          have hg1 := hrecF _ _ hs
          rw [tryNums_back solve row col num rest g g1 hv hs, hg1,
            setCell_undo g row col num 0 h0] at h
          obtain ⟨l1, m, l2, hl, h1, h2, h3⟩ := ih g g2 h0 h
          refine ⟨num :: l1, m, l2, by rw [hl]; rfl, h1, h2, ?_⟩
          intro n hn
          rcases List.mem_cons.1 hn with hn | hn
          · exact Or.inr (by rw [hn, hs, hg1])
          · exact h3 n hn

theorem solveFuel_succ (n : Nat) (g : Grid) :
    solveFuel (n + 1) g = solveBody (solveFuel n) g := rfl

theorem emptyCount_of_noZero (g : Grid) (h : NoZero g) : emptyCount g = 0 := by
  unfold emptyCount
  rw [Finset.card_eq_zero, Finset.filter_eq_empty_iff]
  intro p _
  exact h p.1 p.2

theorem emptyCount_emptyGrid : emptyCount emptyGrid = 81 := by
  have h1 := emptyCount_add_nonzeroCount emptyGrid
  have h2 : nonzeroCount emptyGrid = 0 := by
    unfold nonzeroCount
    rw [Finset.card_eq_zero, Finset.filter_eq_empty_iff]
    intro p _ hp
    exact hp rfl
  omega

/-- A call that returns true had more fuel than its grid has empty cells. -/
theorem solveFuel_true_fuel : ∀ (fuel : Nat) (g g2 : Grid),
    solveFuel fuel g = some (true, g2) → emptyCount g < fuel := by
  intro fuel
  induction fuel with
  | zero => intro g g2 h; simp [solveFuel] at h
  | succ n ih =>
    intro g g2 h
    unfold solveFuel at h
    cases he : findEmptyCell g with
    | none =>
      rw [emptyCount_of_noZero g (findEmptyCell_none g he)]
      exact Nat.succ_pos n
    | some q =>
      obtain ⟨row, col⟩ := q
      rw [he] at h
      have h0 := findEmptyCell_some g row col he
      obtain ⟨l1, num, l2, hl, _, hs, _⟩ :=
        tryNums_true_split (solveFuel n) row col (solveFuel_false n) candidates g g2 h0 h
      have hmem : num ∈ candidates := by rw [hl]; simp
      have hcnt := emptyCount_place g row col num h0 (candidates_ne_zero num hmem)
      have := ih _ _ hs
      omega

/-! ## The nesting of the calls -/

theorem tryNums_deep (solve : Grid → Option (Bool × Grid)) (row col : Fin 9) (n : Nat)
    (S : Grid) (hS : Solved S)
    (hrecF : ∀ x y, solve x = some (false, y) → y = x)
    (hrecT : ∀ x y, solve x = some (true, y) → emptyCount x < n)
    (hrecN : ∀ x, n ≤ emptyCount x → Agrees x S → solve x = none) :
    ∀ (l : List Int) (g : Grid), (∀ m ∈ l, m ≠ 0) → g row col = 0 → n < emptyCount g →
      Agrees g S → S row col ∈ l → tryNums solve row col l g = none := by
  intro l
  induction l with
  | nil => intro g _ _ _ _ hm; exact absurd hm (List.not_mem_nil _)
  | cons num rest ih =>
    intro g hl h0 hc ha hm
    have hrest : ∀ m ∈ rest, m ≠ 0 := fun m hm => hl m (List.mem_cons_of_mem _ hm)
    cases hv : isValidPlacement g row col num with
    | false =>
      rw [tryNums_skip solve row col num rest g hv]
      refine ih g hrest h0 hc ha ?_
      rcases List.mem_cons.1 hm with h | h
      · rw [← h, valid_of_completion g S row col hS ha h0] at hv
        exact absurd hv (by decide)
      · exact h
    | true =>
      have hcnt := emptyCount_place g row col num h0 (hl num (List.mem_cons_self _ _))
      cases hs : solve (setCell g row col num) with
      | none => exact tryNums_none solve row col num rest g hv hs
      | some res =>
        obtain ⟨b, g1⟩ := res
        cases b with
        | true =>
          have := hrecT _ _ hs
          omega
        | false =>
          rw [tryNums_back solve row col num rest g g1 hv hs, hrecF _ _ hs,
            setCell_undo g row col num 0 h0]
          refine ih g hrest h0 hc ha ?_
          rcases List.mem_cons.1 hm with h | h
          · have hnone := hrecN (setCell g row col num) (by omega)
              (h ▸ agrees_fill g S row col ha)
            rw [hs] at hnone
            exact absurd hnone (by simp)
          · exact h

/-- On a grid that has a completion, a search with no more fuel than empty cells runs out
    of fuel: the nesting of the calls goes one deeper than the number of empty cells. -/
theorem solveFuel_deep : ∀ (fuel : Nat) (g S : Grid), fuel ≤ emptyCount g → Solved S →
    Agrees g S → solveFuel fuel g = none := by
  intro fuel
  induction fuel with
  | zero => intro g S _ _ _; rfl
  | succ n ih =>
    intro g S h hS ha
    unfold solveFuel
    cases he : findEmptyCell g with
    | none =>
      have := emptyCount_of_noZero g (findEmptyCell_none g he)
      omega
    | some q =>
      obtain ⟨row, col⟩ := q
      have hr := solved_range S hS row col
      exact tryNums_deep (solveFuel n) row col n S hS (solveFuel_false n)
        (solveFuel_true_fuel n) (fun x hx hax => ih x S hx hS hax) candidates g
        candidates_ne_zero (findEmptyCell_some g row col he) (by omega) ha
        (mem_candidates _ hr.1 hr.2)

/-- The loop asks its recursive call only about grids with one empty cell less than the
    grid of the loop. -/
theorem tryNums_congr (solve other : Grid → Option (Bool × Grid)) (row col : Fin 9)
    (hrecF : ∀ x y, solve x = some (false, y) → y = x) :
    ∀ (l : List Int) (g : Grid), (∀ m ∈ l, m ≠ 0) → g row col = 0 →
      (∀ x, emptyCount x < emptyCount g → other x = solve x) →
      tryNums other row col l g = tryNums solve row col l g := by
  intro l
  induction l with
  | nil => intro g _ _ _; rfl
  | cons num rest ih =>
    intro g hl h0 hag
    have hrest : ∀ m ∈ rest, m ≠ 0 := fun m hm => hl m (List.mem_cons_of_mem _ hm)
    cases hv : isValidPlacement g row col num with
    | false =>
      rw [tryNums_skip solve row col num rest g hv, tryNums_skip other row col num rest g hv]
      exact ih g hrest h0 hag
    | true =>
      have hcnt := emptyCount_place g row col num h0 (hl num (List.mem_cons_self _ _))
      have ho := hag (setCell g row col num) (by omega)
      cases hs : solve (setCell g row col num) with
      | none =>
        rw [tryNums_none solve row col num rest g hv hs,
          tryNums_none other row col num rest g hv (ho.trans hs)]
      | some res =>
        obtain ⟨b, g1⟩ := res
        cases b with
        | true =>
          rw [tryNums_found solve row col num rest g g1 hv hs,
            tryNums_found other row col num rest g g1 hv (ho.trans hs)]
        | false =>
          rw [tryNums_back solve row col num rest g g1 hv hs,
            tryNums_back other row col num rest g g1 hv (ho.trans hs), hrecF _ _ hs,
            setCell_undo g row col num 0 h0]
          exact ih g hrest h0 hag

theorem solveBody_congr (n : Nat) (other : Grid → Option (Bool × Grid)) (g : Grid)
    (hag : ∀ x, emptyCount x < emptyCount g → other x = solveFuel n x) :
    solveBody other g = solveFuel (n + 1) g := by
  rw [solveFuel_succ]
  unfold solveBody
  cases he : findEmptyCell g with
  | none => rfl
  | some q =>
    obtain ⟨row, col⟩ := q
    exact tryNums_congr (solveFuel n) other row col (solveFuel_false n) candidates g
      candidates_ne_zero (findEmptyCell_some g row col he) hag

/-! ## The completion found is the smallest one -/

theorem lexLe_refl (a : Grid) : LexLe a a := Or.inl rfl

/-- The grid a successful search leaves is equal to or lexicographically smaller than
    every completion of the grid it started from. -/
theorem solveFuel_lexLe : ∀ (fuel : Nat) (g g2 S : Grid),
    solveFuel fuel g = some (true, g2) → Solved S → Agrees g S → LexLe g2 S := by
  intro fuel
  induction fuel with
  | zero => intro g g2 S h; simp [solveFuel] at h
  | succ n ih =>
    intro g g2 S h hS ha
    have hfuel := solveFuel_true_fuel (n + 1) g g2 h
    have hr := agrees_inRange g S hS ha
    have hnc := agrees_noConflict g S hS ha
    have hag2 := (solveFuel_true (n + 1) g g2 hr hnc h).2.2.2
    unfold solveFuel at h
    cases he : findEmptyCell g with
    | none =>
      rw [he] at h
      have hg : g = g2 := by simpa using h
      subst hg
      refine Or.inl (funext fun r => funext fun c => ?_)
      exact (ha r c (findEmptyCell_none g he r c)).symm
    | some q =>
      obtain ⟨row, col⟩ := q
      rw [he] at h
      have h0 := findEmptyCell_some g row col he
      obtain ⟨l1, num, l2, hl, hv, hs, hbefore⟩ :=
        tryNums_true_split (solveFuel n) row col (solveFuel_false n) candidates g g2 h0 h
      have hmem : num ∈ candidates := by rw [hl]; simp
      have hnum := candidates_range num hmem
      have hcnt := emptyCount_place g row col num h0 (candidates_ne_zero num hmem)
      have hSr := solved_range S hS row col
      have hSmem := mem_candidates _ hSr.1 hSr.2
      rcases lt_trichotomy (S row col) num with hlt | heq | hgt
      · rcases hbefore _ (candidates_before l1 l2 num _ hl hSmem hlt) with hbad | hbad
        · rw [valid_of_completion g S row col hS ha h0] at hbad
          exact absurd hbad (by decide)
        · obtain ⟨y, hy⟩ := solveFuel_complete n (setCell g row col (S row col)) S
            (by
              have := emptyCount_place g row col (S row col) h0 (hS.1 row col)
              omega)
            hS (agrees_fill g S row col ha)
          rw [hbad] at hy
          simp at hy
      · exact ih _ g2 S hs hS (heq ▸ agrees_fill g S row col ha)
      · refine Or.inr ⟨row, col, ?_, ?_⟩
        · have h2 := (solveFuel_true n _ g2 (inRange_place g row col num hr (by omega) hnum.2)
            (noConflict_place g row col num hnc hv) hs).2.2.2 row col
          rw [setCell_same] at h2
          rw [h2 (candidates_ne_zero num hmem)]
          exact hgt
        · intro r2 c2 hb
          have hnz : g r2 c2 ≠ 0 := by
            have := (firstCell_some _ row col he).2 r2 c2 hb
            simpa using this
          rw [hag2 r2 c2 hnz, ha r2 c2 hnz]

/-! ## One pass of the game loop, case by case -/

/-- A pass of the game loop does one of four things: nothing, a hint, the count of a wrong
    attempt, or the entry of a correct value. -/
theorem mainStep_cases (canWrite : Bool) (rs : List Nat) (s : Session) (row col num : Int) :
    (mainStep canWrite rs s row col num = some (s, false) ∧
      isWrongMove s.game row col num = false) ∨
    (s.game.hintsUsed < 2 ∧
      mainStep canWrite rs s row col num
        = some ({ s with game := provideHint s.game }, false) ∧
      isWrongMove s.game row col num = false) ∨
    (isWrongMove s.game row col num = true ∧
      mainStep canWrite rs s row col num
        = some ({ s with game := incrementWrongAttempts s.game },
            decide (s.game.wrongAttempts + 1 ≥ 3))) ∨
    (isFixed s.game (cellIndex row) (cellIndex col) = false ∧
      isValid s.game.board (cellIndex row) (cellIndex col) num = true ∧
      num = s.game.solution (cellIndex row) (cellIndex col) ∧
      isWrongMove s.game row col num = false ∧
      mainStep canWrite rs s row col num
        = some ({ s with game := updateBoard s.game (cellIndex row) (cellIndex col) num },
            isComplete (updateBoard s.game (cellIndex row) (cellIndex col) num))) := by
  by_cases hhint : row = 0 ∧ col = 0 ∧ num = 0
  · have hw : isWrongMove s.game row col num = false := by
      unfold isWrongMove
      rw [hhint.1]
      simp
    by_cases hlt : s.game.hintsUsed < 2
    · refine Or.inr (Or.inl ⟨hlt, ?_, hw⟩)
      unfold mainStep getHintsUsed
      rw [if_pos hhint, if_pos hlt]
    · refine Or.inl ⟨?_, hw⟩
      unfold mainStep getHintsUsed
      rw [if_pos hhint, if_neg hlt]
  · by_cases hout : row < 1 ∨ row > 9 ∨ col < 1 ∨ col > 9 ∨ num < 1 ∨ num > 9
    · refine Or.inl ⟨?_, ?_⟩
      · unfold mainStep
        rw [if_neg hhint, if_pos hout]
      · unfold isWrongMove
        have : ¬(1 ≤ row ∧ row ≤ 9 ∧ 1 ≤ col ∧ col ≤ 9 ∧ 1 ≤ num ∧ num ≤ 9) := by omega
        simp [this]
    · have hin : 1 ≤ row ∧ row ≤ 9 ∧ 1 ≤ col ∧ col ≤ 9 ∧ 1 ≤ num ∧ num ≤ 9 := by omega
      have hstep : mainStep canWrite rs s row col num =
          some ({ s with game := (playMove s.game row col num).1 },
            (playMove s.game row col num).2) := by
        unfold mainStep
        rw [if_neg hhint, if_neg hout, if_neg (by omega), if_neg (by omega)]
      rw [hstep]
      unfold playMove isWrongMove
      cases hf : isFixed s.game (cellIndex row) (cellIndex col) with
      | true => exact Or.inl (by simp)
      | false =>
        cases hv : isValid s.game.board (cellIndex row) (cellIndex col) num with
        | false => exact Or.inl (by simp)
        | true =>
          by_cases hsol : num = getSolutionAt s.game (cellIndex row) (cellIndex col)
          · refine Or.inr (Or.inr (Or.inr ⟨rfl, rfl, hsol, ?_, ?_⟩))
            · simp [hsol]
            · simp [← hsol]
          · refine Or.inr (Or.inr (Or.inl ⟨?_, ?_⟩))
            · simp [hin, hsol]
            · simp [hsol, incrementWrongAttempts, getWrongAttempts]

/-- Every pass of the game loop returns. -/
theorem mainStep_isSome (canWrite : Bool) (rs : List Nat) (s : Session) (row col num : Int) :
    ∃ s2 fl, mainStep canWrite rs s row col num = some (s2, fl) := by
  rcases mainStep_cases canWrite rs s row col num with h | h | h | h
  · exact ⟨_, _, h.1⟩
  · exact ⟨_, _, h.2.1⟩
  · exact ⟨_, _, h.2⟩
  · exact ⟨_, _, h.2.2.2.2⟩

/-- The pass of the game loop on an incorrect move counts a wrong attempt and leaves the
    loop when the count has reached 3. -/
theorem mainStep_wrong (canWrite : Bool) (rs : List Nat) (s : Session) (row col num : Int)
    (hw : isWrongMove s.game row col num = true) :
    mainStep canWrite rs s row col num
      = some ({ s with game := incrementWrongAttempts s.game },
          decide (s.game.wrongAttempts + 1 ≥ 3)) := by
  rcases mainStep_cases canWrite rs s row col num with h | h | h | h
  · rw [h.2] at hw; exact absurd hw (by decide)
  · rw [h.2.2] at hw; exact absurd hw (by decide)
  · exact h.2
  · rw [h.2.2.2.1] at hw; exact absurd hw (by decide)

theorem gameLoop_stop (canWrite : Bool) (rs : List Nat) (row col num : Int)
    (rest : List (Int × Int × Int)) (s s1 : Session)
    (h : mainStep canWrite rs s row col num = some (s1, true)) :
    gameLoop canWrite rs ((row, col, num) :: rest) s = some (s1, true) := by
  simp [gameLoop, h]

theorem gameLoop_go (canWrite : Bool) (rs : List Nat) (row col num : Int)
    (rest : List (Int × Int × Int)) (s s1 : Session)
    (h : mainStep canWrite rs s row col num = some (s1, false)) :
    gameLoop canWrite rs ((row, col, num) :: rest) s = gameLoop canWrite rs rest s1 := by
  simp [gameLoop, h]

theorem wrongCount_stop (canWrite : Bool) (rs : List Nat) (row col num : Int)
    (rest : List (Int × Int × Int)) (s s1 : Session)
    (h : mainStep canWrite rs s row col num = some (s1, true)) :
    wrongCount canWrite rs ((row, col, num) :: rest) s
      = if isWrongMove s.game row col num then 1 else 0 := by
  simp [wrongCount, h]

theorem wrongCount_go (canWrite : Bool) (rs : List Nat) (row col num : Int)
    (rest : List (Int × Int × Int)) (s s1 : Session)
    (h : mainStep canWrite rs s row col num = some (s1, false)) :
    wrongCount canWrite rs ((row, col, num) :: rest) s
      = (if isWrongMove s.game row col num then 1 else 0) + wrongCount canWrite rs rest s1 := by
  simp [wrongCount, h]

/-! ## What the game loop keeps -/

theorem gameInv_fresh (rs0 : List Nat) (d0 : GameData) (h : SudokuGame rs0 = some d0) :
    GameInv d0 ∧ d0.wrongAttempts = 0 ∧ d0.hintsUsed = 0 := by
  cases rs0 with
  | nil => rw [SudokuGame_nil] at h; exact absurd h (by simp)
  | cons r0 rest =>
    obtain ⟨h1, h2, h3, _, h5, h6⟩ := SudokuGame_spec r0 rest d0 h
    refine ⟨⟨h1, h6, ?_, by omega, by omega⟩, h3, h2⟩
    intro r c hrc
    rw [h1]
    exact h5 r c hrc

theorem gameInv_write (d : GameData) (r c : Fin 9) (hinv : GameInv d) (hu : Int)
    (h0 : 0 ≤ hu) (h2 : hu ≤ 2) :
    GameInv { d with board := setCell d.board r c (d.solution r c),
                     fixed := setCell d.fixed r c true, hintsUsed := hu } := by
  obtain ⟨i1, i2, i3, _, _⟩ := hinv
  have hnz : d.solution r c ≠ 0 := by rw [i1]; exact firstSolution_noZero r c
  refine ⟨i1, ?_, ?_, h0, h2⟩
  · intro r2 c2
    show setCell d.fixed r c true r2 c2 = true ↔ setCell d.board r c (d.solution r c) r2 c2 ≠ 0
    unfold setCell
    by_cases hcell : r2 = r ∧ c2 = c
    · rw [if_pos hcell, if_pos hcell]
      exact ⟨fun _ => hnz, fun _ => rfl⟩
    · rw [if_neg hcell, if_neg hcell]
      exact i2 r2 c2
  · intro r2 c2
    show setCell d.board r c (d.solution r c) r2 c2 ≠ 0 →
      setCell d.board r c (d.solution r c) r2 c2 = d.solution r2 c2
    unfold setCell
    by_cases hcell : r2 = r ∧ c2 = c
    · rw [if_pos hcell, hcell.1, hcell.2]
      exact fun _ => rfl
    · rw [if_neg hcell]
      exact i3 r2 c2

theorem provideHint_wrongAttempts (d : GameData) :
    (provideHint d).wrongAttempts = d.wrongAttempts := by
  unfold provideHint
  split <;> rfl

theorem gameInv_hint (d : GameData) (hinv : GameInv d) (hlt : d.hintsUsed < 2) :
    GameInv (provideHint d) := by
  cases hf : firstCell (fun i j => d.board i j == 0 && !d.fixed i j) with
  | none => rw [provideHint_none d hf]; exact hinv
  | some q =>
    obtain ⟨i, j⟩ := q
    rw [provideHint_some d i j hf]
    exact gameInv_write d i j hinv _ (by have := hinv.2.2.2.1; omega) (by omega)

theorem gameInv_update (d : GameData) (r c : Fin 9) (num : Int) (hinv : GameInv d)
    (hsol : num = d.solution r c) : GameInv (updateBoard d r c num) := by
  rw [hsol]
  exact gameInv_write d r c hinv d.hintsUsed hinv.2.2.2.1 hinv.2.2.2.2

theorem mainStep_inv (canWrite : Bool) (rs : List Nat) (s s2 : Session) (row col num : Int)
    (fl : Bool) (hinv : GameInv s.game)
    (h : mainStep canWrite rs s row col num = some (s2, fl)) :
    GameInv s2.game ∧ s2.file = s.file := by
  rcases mainStep_cases canWrite rs s row col num with hc | hc | hc | hc
  · rw [hc.1] at h
    have := (Prod.mk.inj (Option.some.inj h)).1
    subst this
    exact ⟨hinv, rfl⟩
  · rw [hc.2.1] at h
    have := (Prod.mk.inj (Option.some.inj h)).1
    subst this
    exact ⟨gameInv_hint s.game hinv hc.1, rfl⟩
  · rw [hc.2] at h
    have := (Prod.mk.inj (Option.some.inj h)).1
    subst this
    exact ⟨hinv, rfl⟩
  · rw [hc.2.2.2.2] at h
    have := (Prod.mk.inj (Option.some.inj h)).1
    subst this
    exact ⟨gameInv_update s.game _ _ num hinv hc.2.2.1, rfl⟩

/-- The game loop returns on every list of inputs and keeps the invariant. -/
theorem gameLoop_inv (canWrite : Bool) (rs : List Nat) :
    ∀ (inputs : List (Int × Int × Int)) (s : Session), GameInv s.game →
      ∃ s2 fl, gameLoop canWrite rs inputs s = some (s2, fl) ∧ GameInv s2.game ∧
        s2.file = s.file := by
  intro inputs
  induction inputs with
  | nil => intro s hinv; exact ⟨s, false, rfl, hinv, rfl⟩
  | cons x rest ih =>
    intro s hinv
    obtain ⟨row, col, num⟩ := x
    obtain ⟨s1, fl, hstep⟩ := mainStep_isSome canWrite rs s row col num
    obtain ⟨hinv1, hfile1⟩ := mainStep_inv canWrite rs s s1 row col num fl hinv hstep
    cases fl with
    | true =>
      exact ⟨s1, true, gameLoop_stop canWrite rs row col num rest s s1 hstep, hinv1, hfile1⟩
    | false =>
      obtain ⟨s2, fl2, h2, hinv2, hfile2⟩ := ih s1 hinv1
      refine ⟨s2, fl2, ?_, hinv2, hfile2.trans hfile1⟩
      rw [gameLoop_go canWrite rs row col num rest s s1 hstep]
      exact h2

/-! ## Wrong attempts -/

/-- Along the game loop `wrongAttempts` counts the incorrect moves; the loop goes on
    while the count is below 3 and is left when it reaches 3. -/
theorem gameLoop_wrong (canWrite : Bool) (rs : List Nat) :
    ∀ (inputs : List (Int × Int × Int)) (s : Session) (k : Nat),
      s.game.wrongAttempts = (k : Int) → k ≤ 2 →
      ∃ s2 fl, gameLoop canWrite rs inputs s = some (s2, fl) ∧
        s2.game.wrongAttempts = ((k + wrongCount canWrite rs inputs s : Nat) : Int) ∧
        k + wrongCount canWrite rs inputs s ≤ 3 ∧
        (fl = false → k + wrongCount canWrite rs inputs s ≤ 2) ∧
        (k + wrongCount canWrite rs inputs s = 3 → fl = true) ∧
        (fl = true →
          k + wrongCount canWrite rs inputs s = 3 ∨ isComplete s2.game = true) := by
  intro inputs
  induction inputs with
  | nil =>
    intro s k hk hk2
    refine ⟨s, false, rfl, ?_, ?_, ?_, ?_, ?_⟩
    · simp [wrongCount, hk]
    · simp only [wrongCount]; omega
    · intro _; simp only [wrongCount]; omega
    · intro h; simp only [wrongCount] at h; omega
    · intro h; exact absurd h (by decide)
  | cons x rest ih =>
    intro s k hk hk2
    obtain ⟨row, col, num⟩ := x
    rcases mainStep_cases canWrite rs s row col num with hc | hc | hc | hc
    · obtain ⟨s2, fl, h1, h2, h3, h4, h5, h6⟩ := ih s k hk hk2
      rw [gameLoop_go canWrite rs row col num rest s s hc.1,
        wrongCount_go canWrite rs row col num rest s s hc.1, hc.2]
      simp only [Bool.false_eq_true, if_false, Nat.zero_add]
      exact ⟨s2, fl, h1, h2, h3, h4, h5, h6⟩
    · obtain ⟨s2, fl, h1, h2, h3, h4, h5, h6⟩ := ih { s with game := provideHint s.game } k
        (by rw [← hk]; exact provideHint_wrongAttempts s.game) hk2
      rw [gameLoop_go canWrite rs row col num rest s _ hc.2.1,
        wrongCount_go canWrite rs row col num rest s _ hc.2.1, hc.2.2]
      simp only [Bool.false_eq_true, if_false, Nat.zero_add]
      exact ⟨s2, fl, h1, h2, h3, h4, h5, h6⟩
    · by_cases hlast : k = 2
      · have hfl : decide (s.game.wrongAttempts + 1 ≥ 3) = true := by
          rw [hk, hlast]; decide
        have hstep := hc.2
        rw [hfl] at hstep
        rw [gameLoop_stop canWrite rs row col num rest s _ hstep,
          wrongCount_stop canWrite rs row col num rest s _ hstep, hc.1]
        refine ⟨_, true, rfl, ?_, ?_, ?_, ?_, ?_⟩
        · show s.game.wrongAttempts + 1 = _
          rw [hk, hlast]; rfl
        · simp only [if_true]; omega
        · intro h; exact absurd h (by decide)
        · intro _; rfl
        · intro _; left; simp only [if_true]; omega
      · have hfl : decide (s.game.wrongAttempts + 1 ≥ 3) = false := by
          rw [hk, decide_eq_false_iff_not]; omega
        have hstep := hc.2
        rw [hfl] at hstep
        obtain ⟨s2, fl, h1, h2, h3, h4, h5, h6⟩ :=
          ih { s with game := incrementWrongAttempts s.game } (k + 1)
            (by show s.game.wrongAttempts + 1 = _; rw [hk]; rfl) (by omega)
        rw [gameLoop_go canWrite rs row col num rest s _ hstep,
          wrongCount_go canWrite rs row col num rest s _ hstep, hc.1]
        simp only [if_true]
        refine ⟨s2, fl, h1, ?_, ?_, ?_, ?_, ?_⟩
        · rw [h2]; congr 1; omega
        · omega
        · intro h; have := h4 h; omega
        · intro h; exact h5 (by omega)
        · intro h
          rcases h6 h with h7 | h7
          · left; omega
          · right; exact h7
    · cases hcomp : isComplete (updateBoard s.game (cellIndex row) (cellIndex col) num) with
      | true =>
        have hstep := hc.2.2.2.2
        rw [hcomp] at hstep
        rw [gameLoop_stop canWrite rs row col num rest s _ hstep,
          wrongCount_stop canWrite rs row col num rest s _ hstep, hc.2.2.2.1]
        simp only [Bool.false_eq_true, if_false, Nat.add_zero]
        refine ⟨_, true, rfl, hk, by omega, fun _ => hk2, fun h => ?_, fun _ => Or.inr hcomp⟩
        omega
      | false =>
        have hstep := hc.2.2.2.2
        rw [hcomp] at hstep
        obtain ⟨s2, fl, h1, h2, h3, h4, h5, h6⟩ :=
          ih { s with game := updateBoard s.game (cellIndex row) (cellIndex col) num } k hk hk2
        rw [gameLoop_go canWrite rs row col num rest s _ hstep,
          wrongCount_go canWrite rs row col num rest s _ hstep, hc.2.2.2.1]
        simp only [Bool.false_eq_true, if_false, Nat.zero_add]
        exact ⟨s2, fl, h1, h2, h3, h4, h5, h6⟩

/-! ## Save and load -/

theorem saveTokens_cell (d : GameData) (i j : Fin 9) (x : Int) :
    (saveTokens d).getD (9 * i.val + j.val) x = d.board i j := by
  fin_cases i <;> fin_cases j <;> rfl

theorem saveTokens_hintsUsed (d : GameData) (x : Int) :
    (saveTokens d).getD 81 x = d.hintsUsed := rfl

theorem saveTokens_wrongAttempts (d : GameData) (x : Int) :
    (saveTokens d).getD 82 x = d.wrongAttempts := rfl

theorem saveGame_writes (d : GameData) (file : Option (List Int)) :
    saveGame true d file = some (saveTokens d) := rfl

/-- Loading the integers written by `saveGame`: the board and the two counters of the saved
    game are read back; the solution of the loading instance is handed to
    `generateSolution`. -/
theorem loadGame_saved (d0 d : GameData) (rs : List Nat) :
    loadGame (some (saveTokens d0)) rs d =
      generateSolution
        { d with board := d0.board, fixed := fun i j => d0.board i j != 0,
                 hintsUsed := d0.hintsUsed, wrongAttempts := d0.wrongAttempts } := by
  unfold loadGame
  simp only [saveTokens_cell, saveTokens_hintsUsed, saveTokens_wrongAttempts]

/-- On a grid without empty cell the solver returns true at once and leaves the grid. -/
theorem solveSudoku_noZero (g : Grid) (h : NoZero g) : solveSudoku g = some (true, g) := by
  have he : findEmptyCell g = none := by
    cases hf : findEmptyCell g with
    | none => rfl
    | some q => exact absurd (findEmptyCell_some g q.1 q.2 hf) (h q.1 q.2)
  unfold solveSudoku solveFuel
  rw [he]

theorem generateSolution_noZero (d : GameData) (h : NoZero d.solution) :
    generateSolution d = some d := by
  rw [generateSolution_eq d true d.solution (solveSudoku_noZero d.solution h)]

theorem generateSolution_fields (d d2 : GameData) (h : generateSolution d = some d2) :
    d2.board = d.board ∧ d2.fixed = d.fixed ∧ d2.hintsUsed = d.hintsUsed ∧
      d2.wrongAttempts = d.wrongAttempts := by
  obtain ⟨⟨b, g⟩, hs⟩ := solveSudoku_terminates d.solution
  rw [generateSolution_eq d b g hs] at h
  have := Option.some.inj h
  subst this
  exact ⟨rfl, rfl, rfl, rfl⟩

theorem generateSolution_isSome (d : GameData) : ∃ d2, generateSolution d = some d2 := by
  obtain ⟨⟨b, g⟩, hs⟩ := solveSudoku_terminates d.solution
  exact ⟨_, generateSolution_eq d b g hs⟩

set_option maxRecDepth 100000 in
/-- The construction of a game from `exampleRand2`, evaluated. -/
theorem SudokuGame_exampleRand2 : SudokuGame exampleRand2 = some exampleGame2 := by
  unfold exampleRand2
  rw [SudokuGame_eq]
  decide!

/-! ## Hint requests in a session -/

/-- C1: on the all-zero grid `solveSudoku` returns true and leaves a grid (`firstSolution`)
    without zero cell in which every row, every column and every 3×3 box holds each of
    1..9 exactly once. -/
theorem emptyGrid_solved :
    solveSudoku emptyGrid = some (true, firstSolution) ∧
      NoZero firstSolution ∧ EachOnce firstSolution := by
  have h := solveSudoku_emptyGrid
  obtain ⟨a1, a2, a3, _⟩ :=
    solveFuel_true 82 emptyGrid firstSolution inRange_emptyGrid noConflict_emptyGrid h
  exact ⟨h, a3, eachOnce_of_noConflict firstSolution a1 a3 a2⟩

/-- C2: on a grid with entries in 0..9 whose nonzero cells do not conflict, a call of
    `solveSudoku` that returns true leaves a grid without zero cell, with each of 1..9
    exactly once in every row, column and box, that agrees with the input at every cell
    that was nonzero in the input. -/
theorem solveSudoku_true_solved (g g2 : Grid) (hr : InRange g) (hnc : NoConflict g)
    (h : solveSudoku g = some (true, g2)) : NoZero g2 ∧ EachOnce g2 ∧ Agrees g g2 := by
  obtain ⟨a1, a2, a3, a4⟩ := solveFuel_true 82 g g2 hr hnc h
  exact ⟨a3, eachOnce_of_noConflict g2 a1 a3 a2, a4⟩

theorem solveSudoku_true_solved_witness :
    solveSudoku puzzleGrid = some (true, firstSolution) ∧
      NoZero firstSolution ∧ EachOnce firstSolution ∧ Agrees puzzleGrid firstSolution :=
  ⟨by decide, solveSudoku_true_solved puzzleGrid firstSolution
    (by decide) (by decide) (by decide)⟩

/-- C3: on a grid with entries in 0..9 whose nonzero cells do not conflict, `solveSudoku`
    returns, and it returns true exactly when some complete valid Sudoku grid agrees with
    the input at every nonzero cell (so it returns false only when there is none). -/
theorem solveSudoku_true_iff (g : Grid) (hr : InRange g) (hnc : NoConflict g) :
    ∃ b g2, solveSudoku g = some (b, g2) ∧
      (b = true ↔ ∃ S, Solved S ∧ Agrees g S) := by
  obtain ⟨⟨b, g2⟩, h⟩ := solveSudoku_terminates g
  refine ⟨b, g2, h, ?_, ?_⟩
  · intro hb
    subst hb
    obtain ⟨a1, a2, a3, a4⟩ := solveFuel_true 82 g g2 hr hnc h
    exact ⟨g2, solved_of_noConflict g2 a1 a3 a2, a4⟩
  · rintro ⟨S, hS, ha⟩
    obtain ⟨y, hy⟩ := solveFuel_complete 82 g S (Nat.lt_succ_of_le (emptyCount_le g)) hS ha
    have h2 : solveSudoku g = some (true, y) := hy
    rw [h] at h2
    simpa using congrArg Prod.fst (Option.some.inj h2)

theorem solveSudoku_true_iff_witness :
    InRange puzzleGrid ∧ NoConflict puzzleGrid ∧
      ∃ b g2, solveSudoku puzzleGrid = some (b, g2) ∧
        (b = true ↔ ∃ S, Solved S ∧ Agrees puzzleGrid S) :=
  ⟨by decide, by decide, solveSudoku_true_iff puzzleGrid (by decide) (by decide)⟩

/-- C4: if `solveSudoku` returns false, the grid after the call is cell for cell the grid
    before the call (this holds for every grid, whatever its entries). -/
theorem solveSudoku_false_restores (g g2 : Grid) (h : solveSudoku g = some (false, g2)) :
    g2 = g :=
  solveFuel_false 82 g g2 h

theorem solveSudoku_false_restores_witness :
    solveSudoku stuckGrid = some (false, stuckGrid) ∧ stuckGrid = stuckGrid :=
  ⟨by decide, solveSudoku_false_restores stuckGrid stuckGrid (by decide)⟩

/-- C5 (counterexample): on the grid whose only nonzero cell is (0,0), holding 5, the check
    for (0,0) and 5 reports a conflict although no other cell of the row, the column or
    the box holds 5; the content of the cell itself is not left out of the check. -/
theorem isValid_counts_own_cell :
    isValid ownCellGrid 0 0 5 = false ∧ isValidPlacement ownCellGrid 0 0 5 = false ∧
      ¬ ∃ r c, (r ≠ 0 ∨ c ≠ 0) ∧ Related 0 0 r c ∧ ownCellGrid r c = 5 := by
  decide

/-- C5 (amended): `isValid` and `isValidPlacement` report a conflict exactly when `num`
    stands in some cell of row `row`, of column `col` or of the 3×3 box of `(row, col)`,
    the cell `(row, col)` itself included; the two functions agree on every grid; and when
    the cell `(row, col)` does not hold `num`, a conflict is reported exactly when `num`
    stands in another cell of the row, the column or the box. -/
theorem isValid_false_iff (g : Grid) (row col : Fin 9) (num : Int) :
    (isValid g row col num = false ↔ ∃ r c, Related row col r c ∧ g r c = num) ∧
    (isValidPlacement g row col num = false ↔ ∃ r c, Related row col r c ∧ g r c = num) ∧
    isValid g row col num = isValidPlacement g row col num ∧
    (g row col ≠ num →
      (isValid g row col num = false ↔
        ∃ r c, (r ≠ row ∨ c ≠ col) ∧ Related row col r c ∧ g r c = num)) := by
  have h := conflict_iff_exists g row col num
  refine ⟨h, h, rfl, fun hown => h.trans ⟨?_, ?_⟩⟩
  · rintro ⟨r, c, hrel, hval⟩
    refine ⟨r, c, ?_, hrel, hval⟩
    by_cases hr : r = row
    · refine Or.inr fun hc => hown ?_
      rw [← hr, ← hc, hval]
    · exact Or.inl hr
  · rintro ⟨r, c, _, hrel, hval⟩
    exact ⟨r, c, hrel, hval⟩

theorem isValid_false_iff_witness :
    puzzleGrid 0 0 ≠ 4 ∧
      (isValid puzzleGrid 0 0 4 = false ↔
        ∃ r c, (r ≠ 0 ∨ c ≠ 0) ∧ Related 0 0 r c ∧ puzzleGrid r c = 4) :=
  ⟨by decide, (isValid_false_iff puzzleGrid 0 0 4).2.2.2 (by decide)⟩

/-- C6: the conflict check is symmetric. For two cells that share a row, a column or a
    box: if the second holds `v`, the check of `v` for the first reports a conflict; if the
    first holds `v`, the check of `v` for the second reports a conflict; and the second is
    among the cells read for the first exactly when the first is among the cells read for
    the second. -/
theorem isValid_symmetric (g : Grid) (v : Int) (r1 c1 r2 c2 : Fin 9)
    (hrel : Related r1 c1 r2 c2) :
    (g r2 c2 = v → isValid g r1 c1 v = false) ∧
    (g r1 c1 = v → isValid g r2 c2 v = false) ∧
    ((r2, c2) ∈ inspected r1 c1 ↔ (r1, c1) ∈ inspected r2 c2) := by
  refine ⟨fun h => ?_, fun h => ?_, ?_⟩
  · exact (conflict_iff_exists g r1 c1 v).2 ⟨r2, c2, hrel, h⟩
  · exact (conflict_iff_exists g r2 c2 v).2 ⟨r1, c1, related_symm _ _ _ _ hrel, h⟩
  · rw [mem_inspected, mem_inspected]
    exact ⟨related_symm _ _ _ _, related_symm _ _ _ _⟩

theorem isValid_symmetric_witness :
    Related 4 4 3 5 ∧
      (firstSolution 3 5 = 5 → isValid firstSolution 4 4 5 = false) ∧
      (firstSolution 4 4 = 5 → isValid firstSolution 3 5 5 = false) ∧
      ((3, 5) ∈ inspected 4 4 ↔ (4, 4) ∈ inspected 3 5) :=
  ⟨by decide, isValid_symmetric firstSolution 5 4 4 3 5 (by decide)⟩

/-- C7: when `generateSudoku` returns on a sequence of random numbers (the removal loop
    has ended), called on a state whose solution grid can be completed (all-zero in the
    constructor, already complete in the fallback of `loadGame`), the sequence starts with
    a number `r0`, the board has exactly 81 - (40 + r0 % 15) nonzero cells, which is
    between 27 and 41, and every nonzero board cell equals the solution cell at the same
    position. -/
theorem generated_board_count (rs : List Nat) (d d2 : GameData)
    (hS : ∃ S, Solved S ∧ Agrees d.solution S) (h : generateSudoku rs d = some d2) :
    ∃ r0 rest, rs = r0 :: rest ∧
      nonzeroCount d2.board = 81 - (40 + r0 % 15) ∧
      27 ≤ nonzeroCount d2.board ∧ nonzeroCount d2.board ≤ 41 ∧
      ∀ r c, d2.board r c ≠ 0 → d2.board r c = d2.solution r c := by
  obtain ⟨r0, rest, h0, _, h1, h2, _⟩ := generateSudoku_spec rs d d2 hS h
  have hmod : r0 % 15 < 15 := Nat.mod_lt _ (by decide)
  exact ⟨r0, rest, h0, by omega, by omega, by omega, h2⟩

theorem generated_board_count_witness :
    generateSudoku exampleRand blankData = some exampleGame ∧
      ∃ r0 rest, exampleRand = r0 :: rest ∧
        nonzeroCount exampleGame.board = 81 - (40 + r0 % 15) ∧
        27 ≤ nonzeroCount exampleGame.board ∧ nonzeroCount exampleGame.board ≤ 41 ∧
        ∀ r c, exampleGame.board r c ≠ 0 → exampleGame.board r c = exampleGame.solution r c :=
  ⟨SudokuGame_exampleRand,
    generated_board_count exampleRand blankData exampleGame
      ⟨firstSolution, firstSolution_solved, agrees_emptyGrid firstSolution⟩
      SudokuGame_exampleRand⟩

/-- C8: a move on a cell that is not fixed, with `num` in 1..9 and no conflict on the board
    (the player types the 1-based coordinates `r + 1`, `c + 1`). If `num` is the solution
    value, the game loop writes `num` into the board cell, marks the cell fixed and leaves
    `wrongAttempts` as it is; otherwise it leaves every board cell and every flag as they
    are and adds exactly 1 to `wrongAttempts`. -/
theorem move_effect (canWrite : Bool) (rs : List Nat) (s : Session) (r c : Fin 9) (num : Int)
    (h1 : 1 ≤ num) (h9 : num ≤ 9) (hfix : isFixed s.game r c = false)
    (hval : isValid s.game.board r c num = true) :
    ∃ d2 fl, mainStep canWrite rs s ((r.val : Int) + 1) ((c.val : Int) + 1) num
        = some ({ game := d2, file := s.file }, fl) ∧
      (num = s.game.solution r c →
        d2.board r c = num ∧ d2.fixed r c = true ∧
        (∀ r2 c2, (r2 ≠ r ∨ c2 ≠ c) →
          d2.board r2 c2 = s.game.board r2 c2 ∧ d2.fixed r2 c2 = s.game.fixed r2 c2) ∧
        d2.wrongAttempts = s.game.wrongAttempts) ∧
      (num ≠ s.game.solution r c →
        d2.board = s.game.board ∧ d2.fixed = s.game.fixed ∧
        d2.wrongAttempts = s.game.wrongAttempts + 1) := by
  rw [mainStep_move canWrite rs s r c num h1 h9]
  refine ⟨_, _, rfl, ?_, ?_⟩
  · intro hsol
    rw [playMove_correct s.game r c num hfix hval hsol]
    refine ⟨setCell_same _ _ _ _, setCell_same _ _ _ _, ?_, rfl⟩
    intro r2 c2 hne
    exact ⟨setCell_other _ _ _ _ _ _ hne, setCell_other _ _ _ _ _ _ hne⟩
  · intro hsol
    rw [playMove_wrong s.game r c num hfix hval hsol]
    exact ⟨rfl, rfl, rfl⟩

theorem move_effect_witness :
    (∃ d2 fl, mainStep true [] { game := exampleGame, file := none } 1 2 2
        = some ({ game := d2, file := none }, fl) ∧
      (2 = exampleGame.solution 0 1 →
        d2.board 0 1 = 2 ∧ d2.fixed 0 1 = true ∧
        (∀ r2 c2, (r2 ≠ 0 ∨ c2 ≠ 1) →
          d2.board r2 c2 = exampleGame.board r2 c2 ∧ d2.fixed r2 c2 = exampleGame.fixed r2 c2) ∧
        d2.wrongAttempts = exampleGame.wrongAttempts) ∧
      (2 ≠ exampleGame.solution 0 1 →
        d2.board = exampleGame.board ∧ d2.fixed = exampleGame.fixed ∧
        d2.wrongAttempts = exampleGame.wrongAttempts + 1)) ∧
    (∃ d2 fl, mainStep true [] { game := exampleGame, file := none } 1 2 1
        = some ({ game := d2, file := none }, fl) ∧
      (1 = exampleGame.solution 0 1 →
        d2.board 0 1 = 1 ∧ d2.fixed 0 1 = true ∧
        (∀ r2 c2, (r2 ≠ 0 ∨ c2 ≠ 1) →
          d2.board r2 c2 = exampleGame.board r2 c2 ∧ d2.fixed r2 c2 = exampleGame.fixed r2 c2) ∧
        d2.wrongAttempts = exampleGame.wrongAttempts) ∧
      (1 ≠ exampleGame.solution 0 1 →
        d2.board = exampleGame.board ∧ d2.fixed = exampleGame.fixed ∧
        d2.wrongAttempts = exampleGame.wrongAttempts + 1)) :=
  ⟨move_effect true [] { game := exampleGame, file := none } 0 1 2 (by decide) (by decide)
      (by decide) (by decide),
    move_effect true [] { game := exampleGame, file := none } 0 1 1 (by decide) (by decide)
      (by decide) (by decide)⟩

/-- C10: `provideHint` acts on the first cell in row-major order that holds 0 and is not
    fixed: that board cell gets the solution value, the cell is marked fixed and
    `hintsUsed` grows by 1, while every other board cell, every other flag, the solution
    and `wrongAttempts` stay as they are; and when no cell holds 0 and is not fixed,
    `provideHint` changes nothing. -/
theorem provideHint_effect (d : GameData) :
    (∀ i j, d.board i j = 0 → d.fixed i j = false →
      (∀ i2 j2, (i2 < i ∨ (i2 = i ∧ j2 < j)) →
        ¬(d.board i2 j2 = 0 ∧ d.fixed i2 j2 = false)) →
      (provideHint d).board i j = d.solution i j ∧ (provideHint d).fixed i j = true ∧
      (provideHint d).hintsUsed = d.hintsUsed + 1 ∧
      (∀ r c, (r ≠ i ∨ c ≠ j) →
        (provideHint d).board r c = d.board r c ∧ (provideHint d).fixed r c = d.fixed r c) ∧
      (provideHint d).solution = d.solution ∧
      (provideHint d).wrongAttempts = d.wrongAttempts) ∧
    ((∀ i j, ¬(d.board i j = 0 ∧ d.fixed i j = false)) → provideHint d = d) := by
  constructor
  · intro i j hb hf hmin
    have hfirst : firstCell (fun i j => d.board i j == 0 && !d.fixed i j) = some (i, j) := by
      apply firstCell_eq
      · exact (editable_iff d i j).2 ⟨hb, hf⟩
      · intro i2 j2 hlt
        have h1 := hmin i2 j2 hlt
        rw [← editable_iff] at h1
        simpa using h1
    rw [provideHint_some d i j hfirst]
    refine ⟨setCell_same _ _ _ _, setCell_same _ _ _ _, rfl, ?_, rfl, rfl⟩
    intro r c hne
    exact ⟨setCell_other _ _ _ _ _ _ hne, setCell_other _ _ _ _ _ _ hne⟩
  · intro hnone
    apply provideHint_none
    cases hf : firstCell (fun i j => d.board i j == 0 && !d.fixed i j) with
    | none => rfl
    | some q =>
      obtain ⟨i, j⟩ := q
      have h1 := (firstCell_some _ i j hf).1
      exact absurd ((editable_iff d i j).1 h1) (hnone i j)

theorem provideHint_effect_witness :
    ((provideHint (provideHint exampleGame)).board 0 1 = (provideHint exampleGame).solution 0 1 ∧
      (provideHint (provideHint exampleGame)).fixed 0 1 = true ∧
      (provideHint (provideHint exampleGame)).hintsUsed
        = (provideHint exampleGame).hintsUsed + 1 ∧
      (∀ r c, (r ≠ 0 ∨ c ≠ 1) →
        (provideHint (provideHint exampleGame)).board r c
          = (provideHint exampleGame).board r c ∧
        (provideHint (provideHint exampleGame)).fixed r c
          = (provideHint exampleGame).fixed r c) ∧
      (provideHint (provideHint exampleGame)).solution = (provideHint exampleGame).solution ∧
      (provideHint (provideHint exampleGame)).wrongAttempts
        = (provideHint exampleGame).wrongAttempts) ∧
    provideHint { exampleGame with board := firstSolution }
      = { exampleGame with board := firstSolution } :=
  ⟨(provideHint_effect (provideHint exampleGame)).1 0 1 (by decide) (by decide) (by decide),
    (provideHint_effect { exampleGame with board := firstSolution }).2 (by decide)⟩

/-- C11: in every state the game loop reaches from a freshly constructed game, whatever
    the inputs (moves, hint requests, rejected inputs), every fixed cell has a nonzero
    board value, every nonzero board cell equals the solution cell at the same position,
    and the solution has no zero cell and holds each of 1..9 exactly once in every row,
    column and box. -/
theorem session_invariants (canWrite : Bool) (rs rs0 : List Nat) (d0 : GameData)
    (f : Option (List Int)) (inputs : List (Int × Int × Int))
    (h : SudokuGame rs0 = some d0) :
    ∃ s fl, gameLoop canWrite rs inputs { game := d0, file := f } = some (s, fl) ∧
      (∀ r c, s.game.fixed r c = true → s.game.board r c ≠ 0) ∧
      (∀ r c, s.game.board r c ≠ 0 → s.game.board r c = s.game.solution r c) ∧
      NoZero s.game.solution ∧ EachOnce s.game.solution := by
  obtain ⟨s, fl, h1, ⟨i1, i2, i3, _, _⟩, _⟩ :=
    gameLoop_inv canWrite rs inputs { game := d0, file := f } (gameInv_fresh rs0 d0 h).1
  refine ⟨s, fl, h1, fun r c hf => (i2 r c).1 hf, i3, ?_, ?_⟩
  · rw [i1]; exact firstSolution_solved.1
  · rw [i1]; exact firstSolution_solved.2

theorem session_invariants_witness :
    SudokuGame exampleRand = some exampleGame ∧
      ∃ s fl, gameLoop true [] exampleInputs { game := exampleGame, file := none }
          = some (s, fl) ∧
        (∀ r c, s.game.fixed r c = true → s.game.board r c ≠ 0) ∧
        (∀ r c, s.game.board r c ≠ 0 → s.game.board r c = s.game.solution r c) ∧
        NoZero s.game.solution ∧ EachOnce s.game.solution :=
  ⟨SudokuGame_exampleRand,
    session_invariants true [] exampleRand exampleGame none exampleInputs
      SudokuGame_exampleRand⟩

/-- C12: save then load is a round trip on the persisted fields. The integers written by
    `saveGame` for a game (81 board cells, `hintsUsed`, `wrongAttempts`), read by
    `loadGame` into any instance, give that instance the board, `hintsUsed` and
    `wrongAttempts` of the saved game and a mask that is true exactly at the nonzero
    board cells (this holds for every saved state, whatever its entries). -/
theorem save_load_roundtrip (d0 d : GameData) (f : Option (List Int)) (rs : List Nat) :
    ∃ d2, loadGame (saveGame true d0 f) rs d = some d2 ∧
      d2.board = d0.board ∧ d2.hintsUsed = d0.hintsUsed ∧
      d2.wrongAttempts = d0.wrongAttempts ∧
      ∀ r c, d2.fixed r c = true ↔ d2.board r c ≠ 0 := by
  rw [saveGame_writes, loadGame_saved]
  obtain ⟨d2, h2⟩ := generateSolution_isSome
    { d with board := d0.board, fixed := fun i j => d0.board i j != 0,
             hintsUsed := d0.hintsUsed, wrongAttempts := d0.wrongAttempts }
  obtain ⟨a1, a2, a3, a4⟩ := generateSolution_fields _ d2 h2
  refine ⟨d2, h2, a1, a3, a4, ?_⟩
  intro r c
  rw [a1, a2]
  simp

/-- C13: a state the game loop reaches from a fresh game, saved and then loaded into
    another freshly constructed instance (whatever random numbers that instance drew),
    gives a state that holds the saved board and the saved counters `hintsUsed` and
    `wrongAttempts`, whose fixed flags mark exactly the nonzero board cells, whose solution
    is the solution of the saved game and a complete valid grid, and in which every
    nonzero board cell equals the solution cell at the same position. -/
theorem load_into_fresh (canWrite : Bool) (rs rs0 rs2 rs3 : List Nat) (d0 d2 : GameData)
    (f : Option (List Int)) (inputs : List (Int × Int × Int))
    (h : SudokuGame rs0 = some d0) (h2 : SudokuGame rs2 = some d2) :
    ∃ s fl, gameLoop canWrite rs inputs { game := d0, file := f } = some (s, fl) ∧
      ∃ d3, loadGame (saveGame true s.game s.file) rs3 d2 = some d3 ∧
        d3.board = s.game.board ∧ d3.hintsUsed = s.game.hintsUsed ∧
        d3.wrongAttempts = s.game.wrongAttempts ∧
        (∀ r c, d3.fixed r c = true ↔ d3.board r c ≠ 0) ∧
        d3.solution = s.game.solution ∧
        NoZero d3.solution ∧ EachOnce d3.solution ∧
        ∀ r c, d3.board r c ≠ 0 → d3.board r c = d3.solution r c := by
  obtain ⟨s, fl, h1, ⟨i1, _, i3, _, _⟩, _⟩ :=
    gameLoop_inv canWrite rs inputs { game := d0, file := f } (gameInv_fresh rs0 d0 h).1
  have j1 := (gameInv_fresh rs2 d2 h2).1.1
  refine ⟨s, fl, h1,
    { d2 with board := s.game.board, fixed := fun i j => s.game.board i j != 0,
              hintsUsed := s.game.hintsUsed, wrongAttempts := s.game.wrongAttempts },
    ?_, rfl, rfl, rfl, ?_, ?_, ?_, ?_, ?_⟩
  · rw [saveGame_writes, loadGame_saved]
    exact generateSolution_noZero _ (by
      show NoZero d2.solution
      rw [j1]; exact firstSolution_noZero)
  · intro r c
    show (s.game.board r c != 0) = true ↔ s.game.board r c ≠ 0
    simp
  · show d2.solution = s.game.solution
    rw [j1, i1]
  · show NoZero d2.solution
    rw [j1]; exact firstSolution_noZero
  · show EachOnce d2.solution
    rw [j1]; exact firstSolution_solved.2
  · intro r c hrc
    show s.game.board r c = d2.solution r c
    rw [j1, ← i1]
    exact i3 r c hrc

theorem load_into_fresh_witness :
    SudokuGame exampleRand = some exampleGame ∧
      SudokuGame exampleRand2 = some exampleGame2 ∧
      ∃ s fl, gameLoop true [] exampleInputs { game := exampleGame, file := none }
          = some (s, fl) ∧
        ∃ d3, loadGame (saveGame true s.game s.file) [] exampleGame2 = some d3 ∧
          d3.board = s.game.board ∧ d3.hintsUsed = s.game.hintsUsed ∧
          d3.wrongAttempts = s.game.wrongAttempts ∧
          (∀ r c, d3.fixed r c = true ↔ d3.board r c ≠ 0) ∧
          d3.solution = s.game.solution ∧
          NoZero d3.solution ∧ EachOnce d3.solution ∧
          ∀ r c, d3.board r c ≠ 0 → d3.board r c = d3.solution r c :=
  ⟨SudokuGame_exampleRand, SudokuGame_exampleRand2,
    load_into_fresh true [] exampleRand exampleRand2 [] exampleGame exampleGame2 none
      exampleInputs SudokuGame_exampleRand SudokuGame_exampleRand2⟩

/-- C14: from a fresh game (`wrongAttempts` 0), whatever the inputs, `wrongAttempts` is the
    number of incorrect moves made; the loop goes on while that number is at most 2 and
    is left when it reaches 3, and it is left only then or on a completed board; and in a
    session still going on, an incorrect move adds 1 to `wrongAttempts` and leaves the
    loop exactly when the new value is 3. So the session is lost exactly at the third
    incorrect move and `wrongAttempts` never exceeds 3. -/
theorem lost_at_third_wrong (canWrite : Bool) (rs rs0 : List Nat) (d0 : GameData)
    (f : Option (List Int)) (inputs : List (Int × Int × Int))
    (h : SudokuGame rs0 = some d0) :
    d0.wrongAttempts = 0 ∧
    ∃ s fl, gameLoop canWrite rs inputs { game := d0, file := f } = some (s, fl) ∧
      s.game.wrongAttempts
        = ((wrongCount canWrite rs inputs { game := d0, file := f } : Nat) : Int) ∧
      wrongCount canWrite rs inputs { game := d0, file := f } ≤ 3 ∧
      (fl = false → wrongCount canWrite rs inputs { game := d0, file := f } ≤ 2) ∧
      (wrongCount canWrite rs inputs { game := d0, file := f } = 3 → fl = true) ∧
      (fl = true → wrongCount canWrite rs inputs { game := d0, file := f } = 3 ∨
        isComplete s.game = true) ∧
      (fl = false → ∀ row col num, isWrongMove s.game row col num = true →
        mainStep canWrite rs s row col num
          = some ({ s with game := incrementWrongAttempts s.game },
              decide (s.game.wrongAttempts + 1 ≥ 3))) := by
  have h0 := (gameInv_fresh rs0 d0 h).2.1
  obtain ⟨s, fl, a1, a2, a3, a4, a5, a6⟩ :=
    gameLoop_wrong canWrite rs inputs { game := d0, file := f } 0 (by simp [h0]) (by omega)
  rw [Nat.zero_add] at a2 a3 a4 a5 a6
  exact ⟨h0, s, fl, a1, a2, a3, a4, a5, a6,
    fun _ row col num hw => mainStep_wrong canWrite rs s row col num hw⟩

theorem lost_at_third_wrong_witness :
    SudokuGame exampleRand = some exampleGame ∧
      wrongCount true [] lostInputs { game := exampleGame, file := none } = 3 ∧
      exampleGame.wrongAttempts = 0 ∧
      ∃ s fl, gameLoop true [] lostInputs { game := exampleGame, file := none }
          = some (s, fl) ∧
        s.game.wrongAttempts
          = ((wrongCount true [] lostInputs { game := exampleGame, file := none } : Nat)
              : Int) ∧
        wrongCount true [] lostInputs { game := exampleGame, file := none } ≤ 3 ∧
        (fl = false →
          wrongCount true [] lostInputs { game := exampleGame, file := none } ≤ 2) ∧
        (wrongCount true [] lostInputs { game := exampleGame, file := none } = 3 →
          fl = true) ∧
        (fl = true →
          wrongCount true [] lostInputs { game := exampleGame, file := none } = 3 ∨
            isComplete s.game = true) ∧
        (fl = false → ∀ row col num, isWrongMove s.game row col num = true →
          mainStep true [] s row col num
            = some ({ s with game := incrementWrongAttempts s.game },
                decide (s.game.wrongAttempts + 1 ≥ 3))) :=
  ⟨SudokuGame_exampleRand, by decide,
    lost_at_third_wrong true [] exampleRand exampleGame none lostInputs
      SudokuGame_exampleRand⟩

/-- C15 (the code at the failing input): the inputs `-1 -1 -1` and `-2 -2 -2` are stopped
    by the range test that precedes the save and load tests; the pass leaves the game and
    the file as they are, and `saveGame` and `loadGame` are not called. -/
theorem save_load_not_reached (canWrite : Bool) (rs : List Nat) (s : Session) :
    mainStep canWrite rs s (-1) (-1) (-1) = some (s, false) ∧
      mainStep canWrite rs s (-2) (-2) (-2) = some (s, false) := by
  constructor <;>
  · unfold mainStep
    rw [if_neg (by decide), if_pos (by decide)]

/-- C16: a move the game loop rejects because the cell is fixed or because the value
    conflicts on the board leaves the whole state (board, mask, solution, `hintsUsed`,
    `wrongAttempts`, file) as it is and does not leave the loop. -/
theorem rejected_move_unchanged (canWrite : Bool) (rs : List Nat) (s : Session)
    (r c : Fin 9) (num : Int) (h1 : 1 ≤ num) (h9 : num ≤ 9)
    (hrej : isFixed s.game r c = true ∨ isValid s.game.board r c num = false) :
    mainStep canWrite rs s ((r.val : Int) + 1) ((c.val : Int) + 1) num = some (s, false) := by
  rw [mainStep_move canWrite rs s r c num h1 h9]
  unfold playMove
  rw [cellIndex_succ, cellIndex_succ]
  rcases hrej with hf | hv
  · simp [hf]
  · cases hf : isFixed s.game r c <;> simp [hv]

theorem rejected_move_unchanged_witness :
    (isFixed exampleGame 4 4 = true ∨ isValid exampleGame.board 4 4 1 = false) ∧
      mainStep true [] { game := exampleGame, file := none } 5 5 1
        = some ({ game := exampleGame, file := none }, false) ∧
      (isFixed exampleGame 0 1 = true ∨ isValid exampleGame.board 0 1 3 = false) ∧
      mainStep true [] { game := exampleGame, file := none } 1 2 3
        = some ({ game := exampleGame, file := none }, false) :=
  ⟨by decide,
    rejected_move_unchanged true [] { game := exampleGame, file := none } 4 4 1 (by decide)
      (by decide) (by decide),
    by decide,
    rejected_move_unchanged true [] { game := exampleGame, file := none } 0 1 3 (by decide)
      (by decide) (by decide)⟩

/-- C17 (counterexample): on the all-zero grid 81 nested calls of `solveSudoku` are not
    enough, the search needs 82: the outer call and one nested call for each of the 81
    cells, the last of which finds no empty cell. -/
theorem depth_81_not_enough :
    solveFuel 81 emptyGrid = none ∧ solveFuel 82 emptyGrid = some (true, firstSolution) :=
  ⟨solveFuel_deep 81 emptyGrid firstSolution (by rw [emptyCount_emptyGrid])
      firstSolution_solved (agrees_emptyGrid firstSolution),
    solveSudoku_emptyGrid⟩

/-- C17 (amended): `solveSudoku` returns on every grid; a call asks its recursive calls
    only about grids with strictly fewer zero cells than its own grid at entry; so one
    more nested call than the grid has zero cells is enough, that is at most 82 nested
    calls: the outer call and at most 81 recursive calls inside it. -/
theorem solveSudoku_depth (g : Grid) :
    (∃ res, solveSudoku g = some res) ∧
    (∃ res, solveFuel (emptyCount g + 1) g = some res) ∧
    emptyCount g + 1 ≤ 82 ∧
    (∀ (n : Nat) (other : Grid → Option (Bool × Grid)),
      (∀ x, emptyCount x < emptyCount g → other x = solveFuel n x) →
      solveBody other g = solveFuel (n + 1) g) := by
  refine ⟨solveSudoku_terminates g, solveFuel_isSome _ g (Nat.lt_succ_self _), ?_,
    fun n other hag => solveBody_congr n other g hag⟩
  have := emptyCount_le g
  omega

theorem solveSudoku_depth_witness :
    solveBody (fun x => if emptyCount x < emptyCount puzzleGrid then solveFuel 11 x else none)
      puzzleGrid = solveFuel (11 + 1) puzzleGrid :=
  (solveSudoku_depth puzzleGrid).2.2.2 11
    (fun x => if emptyCount x < emptyCount puzzleGrid then solveFuel 11 x else none)
    (fun _ hx => if_pos hx)

/-- C18: the solution grid of a freshly constructed game does not depend on the random
    numbers: two games constructed from any two sequences have the same solution grid. -/
theorem solution_independent (rs1 rs2 : List Nat) (d1 d2 : GameData)
    (h1 : SudokuGame rs1 = some d1) (h2 : SudokuGame rs2 = some d2) :
    d1.solution = d2.solution := by
  rw [(gameInv_fresh rs1 d1 h1).1.1, (gameInv_fresh rs2 d2 h2).1.1]

theorem solution_independent_witness :
    SudokuGame exampleRand = some exampleGame ∧ SudokuGame exampleRand2 = some exampleGame2 ∧
      exampleGame.solution = exampleGame2.solution :=
  ⟨SudokuGame_exampleRand, SudokuGame_exampleRand2,
    solution_independent exampleRand exampleRand2 exampleGame exampleGame2
      SudokuGame_exampleRand SudokuGame_exampleRand2⟩

/-- C19: on a grid with entries in 0..9 whose nonzero cells do not conflict, the grid a
    successful `solveSudoku` leaves is a complete valid grid that agrees with the input at
    its nonzero cells, and it is equal to or lexicographically smaller (cells compared in
    row-major order) than every complete valid grid that agrees with the input. -/
theorem solveSudoku_lex_smallest (g g2 : Grid) (hr : InRange g) (hnc : NoConflict g)
    (h : solveSudoku g = some (true, g2)) :
    Solved g2 ∧ Agrees g g2 ∧ ∀ S, Solved S → Agrees g S → LexLe g2 S := by
  obtain ⟨a1, a2, a3, a4⟩ := solveFuel_true 82 g g2 hr hnc h
  exact ⟨solved_of_noConflict g2 a1 a3 a2, a4, fun S hS ha => solveFuel_lexLe 82 g g2 S h hS ha⟩

theorem solveSudoku_lex_smallest_witness :
    solveSudoku puzzleGrid = some (true, firstSolution) ∧
      Solved firstSolution ∧ Agrees puzzleGrid firstSolution ∧
      ∀ S, Solved S → Agrees puzzleGrid S → LexLe firstSolution S :=
  ⟨by decide, solveSudoku_lex_smallest puzzleGrid firstSolution (by decide) (by decide)
    (by decide)⟩

/-- C20: in every state the game loop reaches from a freshly constructed game, for every
    cell whose board value is 0 the conflict check accepts the solution value of that
    cell. -/
theorem solution_value_accepted (canWrite : Bool) (rs rs0 : List Nat) (d0 : GameData)
    (f : Option (List Int)) (inputs : List (Int × Int × Int))
    (h : SudokuGame rs0 = some d0) :
    ∃ s fl, gameLoop canWrite rs inputs { game := d0, file := f } = some (s, fl) ∧
      ∀ r c, s.game.board r c = 0 →
        isValid s.game.board r c (s.game.solution r c) = true := by
  obtain ⟨s, fl, h1, ⟨i1, _, i3, _, _⟩, _⟩ :=
    gameLoop_inv canWrite rs inputs { game := d0, file := f } (gameInv_fresh rs0 d0 h).1
  refine ⟨s, fl, h1, fun r c h0 => ?_⟩
  rw [isValid_eq_isValidPlacement]
  refine valid_of_completion s.game.board s.game.solution r c ?_ ?_ h0
  · rw [i1]; exact firstSolution_solved
  · intro r2 c2 hnz
    exact (i3 r2 c2 hnz).symm

theorem solution_value_accepted_witness :
    SudokuGame exampleRand = some exampleGame ∧
      ∃ s fl, gameLoop true [] exampleInputs { game := exampleGame, file := none }
          = some (s, fl) ∧
        ∀ r c, s.game.board r c = 0 →
          isValid s.game.board r c (s.game.solution r c) = true :=
  ⟨SudokuGame_exampleRand,
    solution_value_accepted true [] exampleRand exampleGame none exampleInputs
      SudokuGame_exampleRand⟩

/-- C21: on a state whose solution grid has no zero cell, a `loadGame` that opens the file
    returns and leaves the solution grid as it is, whatever integers the file holds: the
    board cells are the integers read, `findEmptyCell` finds no empty cell and the solver
    returns true at once without writing. So the solution is not recomputed from the
    loaded board, and there are save files (written by `saveGame` for a board with another
    value in cell (0,0)) after whose load a board cell holds a value of 1..9 that differs
    from the solution cell. -/
theorem loadGame_keeps_solution (d : GameData) (toks : List Int) (rs : List Nat)
    (h : NoZero d.solution) :
    (∃ d2, loadGame (some toks) rs d = some d2 ∧ d2.solution = d.solution ∧
      ∀ i j, d2.board i j = toks.getD (9 * i.val + j.val) (d.board i j)) ∧
    (findEmptyCell d.solution = none ∧ solveSudoku d.solution = some (true, d.solution)) ∧
    ∃ toks2 d3, loadGame (some toks2) rs d = some d3 ∧ d3.solution = d.solution ∧
      ∃ r c, 1 ≤ d3.board r c ∧ d3.board r c ≤ 9 ∧ d3.board r c ≠ d3.solution r c := by
  have hload : ∀ t : List Int, loadGame (some t) rs d =
      some { d with board := fun i j => t.getD (9 * i.val + j.val) (d.board i j),
                    fixed := fun i j => t.getD (9 * i.val + j.val) (d.board i j) != 0,
                    hintsUsed := t.getD 81 d.hintsUsed,
                    wrongAttempts := t.getD 82 d.wrongAttempts } := by
    intro t
    unfold loadGame
    exact generateSolution_noZero _ h
  have hs := solveSudoku_noZero d.solution h
  refine ⟨⟨_, hload toks, rfl, fun _ _ => rfl⟩, ⟨?_, hs⟩, ?_⟩
  · cases hf : findEmptyCell d.solution with
    | none => rfl
    | some q => exact absurd (findEmptyCell_some d.solution q.1 q.2 hf) (h q.1 q.2)
  · have hcell : ∀ v : Int,
        (saveTokens { d with board := setCell d.board 0 0 v }).getD (9 * (0 : Fin 9).val
          + (0 : Fin 9).val) (d.board 0 0) = v := by
      intro v
      rw [saveTokens_cell]
      exact setCell_same d.board 0 0 v
    have key : ∀ v : Int, 1 ≤ v → v ≤ 9 → v ≠ d.solution 0 0 →
        ∃ toks2 d3, loadGame (some toks2) rs d = some d3 ∧ d3.solution = d.solution ∧
          ∃ r c, 1 ≤ d3.board r c ∧ d3.board r c ≤ 9 ∧ d3.board r c ≠ d3.solution r c := by
      intro v h1 h9 hne
      obtain ⟨d3, hd3, hsol, hbrd⟩ : ∃ d3,
          loadGame (some (saveTokens { d with board := setCell d.board 0 0 v })) rs d = some d3 ∧
          d3.solution = d.solution ∧ d3.board 0 0 = v := ⟨_, hload _, rfl, hcell v⟩
      refine ⟨_, d3, hd3, hsol, 0, 0, ?_⟩
      rw [hbrd, hsol]
      exact ⟨h1, h9, hne⟩
    by_cases h1 : d.solution 0 0 = 1
    · exact key 2 (by decide) (by decide) (by rw [h1]; decide)
    · exact key 1 (by decide) (by decide) (fun he => h1 he.symm)

theorem loadGame_keeps_solution_witness :
    NoZero exampleGame.solution ∧
    (∃ d2, loadGame (some (saveTokens exampleGame2)) [] exampleGame = some d2 ∧
      d2.solution = exampleGame.solution ∧
      ∀ i j, d2.board i j
        = (saveTokens exampleGame2).getD (9 * i.val + j.val) (exampleGame.board i j)) ∧
    (findEmptyCell exampleGame.solution = none ∧
      solveSudoku exampleGame.solution = some (true, exampleGame.solution)) ∧
    ∃ toks2 d3, loadGame (some toks2) [] exampleGame = some d3 ∧
      d3.solution = exampleGame.solution ∧
      ∃ r c, 1 ≤ d3.board r c ∧ d3.board r c ≤ 9 ∧ d3.board r c ≠ d3.solution r c :=
  ⟨firstSolution_noZero,
    loadGame_keeps_solution exampleGame (saveTokens exampleGame2) [] firstSolution_noZero⟩

end Sudoku
